import Mathlib

/-!
Verification of the greentic-cards2pack core pipeline (scanner, grouper,
graph builder, node orderer, flow emitter) against its specification.

The Rust sources under `src/` are shallowly embedded:
  * Rust `String`s become `List Char` (`Str`), compared lexicographically by
    code point, which agrees with Rust's byte-wise ordering on ASCII data
    (all identifiers, markers and messages in this development are ASCII);
  * `BTreeMap<String, _>` becomes an association list kept sorted by key
    (`alInsert` inserts at the sorted position and replaces an equal key,
    matching `BTreeMap::insert` / `entry().or_insert` semantics);
  * `BTreeSet<String>` becomes a duplicate-free `List Str` queried only by
    membership;
  * fallible functions (`anyhow::Result`) become `Except Str`;
  * the external `greentic-flow` subprocess is modelled by recording the
    per-node instructions the emitter sends to it (`Step` below); only the
    instruction stream, exit-status handling and warning bookkeeping are the
    repository's own logic.
-/

/-- Rust strings, modelled as their character sequences. -/
abbrev Str := List Char

/-- The characters of a Lean string literal, used to write `Str` constants. -/
def str (s : String) : Str := s.data

/-- Byte-wise (here: code-point-wise) strict lexicographic order on strings,
modelling Rust's `Ord for String`. -/
def strLtB : Str → Str → Bool
  | [], [] => false
  | [], _ :: _ => true
  | _ :: _, [] => false
  | a :: as, b :: bs =>
    if a.toNat < b.toNat then true
    else if b.toNat < a.toNat then false
    else strLtB as bs

/-- Non-strict comparison used by the model's stable sorts
(`x ≤ y ↔ ¬ y < x` for a total order). -/
def strLeB (a b : Str) : Bool := ! strLtB b a

theorem char_toNat_inj {a b : Char} (h : a.toNat = b.toNat) : a = b :=
  Char.ext (UInt32.ext h)

theorem strLtB_irrefl (a : Str) : strLtB a a = false := by
  induction a with
  | nil => rfl
  | cons c cs ih => simp [strLtB, ih]

theorem strLtB_asymm : ∀ {a b : Str}, strLtB a b = true → strLtB b a = false
  | [], [], h => by simp [strLtB] at h
  | [], _ :: _, _ => rfl
  | _ :: _, [], h => by simp [strLtB] at h
  | a :: as, b :: bs, h => by
    simp only [strLtB] at h ⊢
    rcases Nat.lt_trichotomy a.toNat b.toNat with hlt | heq | hgt
    · simp [hlt, Nat.lt_asymm hlt]
    · have hab : a = b := char_toNat_inj heq
      subst hab
      simp only [Nat.lt_irrefl, if_false] at h ⊢
      exact strLtB_asymm h
    · simp [hgt, Nat.lt_asymm hgt] at h

theorem strLtB_connex : ∀ {a b : Str}, strLtB a b = false → strLtB b a = false → a = b
  | [], [], _, _ => rfl
  | [], _ :: _, h, _ => by simp [strLtB] at h
  | _ :: _, [], _, h => by simp [strLtB] at h
  | a :: as, b :: bs, h₁, h₂ => by
    simp only [strLtB] at h₁ h₂
    rcases Nat.lt_trichotomy a.toNat b.toNat with hlt | heq | hgt
    · simp [hlt] at h₁
    · have hab : a = b := char_toNat_inj heq
      subst hab
      simp only [Nat.lt_irrefl, if_false] at h₁ h₂
      exact congrArg (a :: ·) (strLtB_connex h₁ h₂)
    · simp [hgt] at h₂

theorem strLtB_trans : ∀ {a b c : Str},
    strLtB a b = true → strLtB b c = true → strLtB a c = true
  | [], [], _, h, _ => by simp [strLtB] at h
  | [], _ :: _, [], _, h => by simp [strLtB] at h
  | [], _ :: _, _ :: _, _, _ => rfl
  | _ :: _, [], _, h, _ => by simp [strLtB] at h
  | _ :: _, _ :: _, [], _, h => by simp [strLtB] at h
  | a :: as, b :: bs, c :: cs, h₁, h₂ => by
    simp only [strLtB] at h₁ h₂ ⊢
    rcases Nat.lt_trichotomy a.toNat b.toNat with hab | hab | hab
    · rcases Nat.lt_trichotomy b.toNat c.toNat with hbc | hbc | hbc
      · simp [Nat.lt_trans hab hbc]
      · have : b = c := char_toNat_inj hbc
        subst this; simp [hab]
      · simp [hbc, Nat.lt_asymm hbc] at h₂
    · have : a = b := char_toNat_inj hab
      subst this
      simp only [Nat.lt_irrefl, if_false] at h₁
      rcases Nat.lt_trichotomy a.toNat c.toNat with hac | hac | hac
      · simp [hac]
      · have : a = c := char_toNat_inj hac
        subst this
        simp only [Nat.lt_irrefl, if_false] at h₂ ⊢
        exact strLtB_trans h₁ h₂
      · simp [hac, Nat.lt_asymm hac] at h₂
    · simp [hab, Nat.lt_asymm hab] at h₁

theorem strLeB_total (a b : Str) : strLeB a b = true ∨ strLeB b a = true := by
  unfold strLeB
  cases h : strLtB b a with
  | false => left; rfl
  | true =>
    right
    have := strLtB_asymm h
    simp [this]

theorem strLeB_trans {a b c : Str} (h₁ : strLeB a b = true) (h₂ : strLeB b c = true) :
    strLeB a c = true := by
  unfold strLeB at h₁ h₂ ⊢
  simp only [Bool.not_eq_true'] at h₁ h₂ ⊢
  by_contra hne
  have hca : strLtB c a = true := by
    cases h : strLtB c a with
    | false => exact absurd h hne
    | true => rfl
  cases hab : strLtB a b with
  | false =>
    have : a = b := strLtB_connex hab h₁
    subst this
    simp [hca] at h₂
  | true =>
    have : strLtB c b = true := strLtB_trans hca hab
    simp [this] at h₂

/-- `a ≤ b` and `b ≤ a` imply `a = b`. -/
theorem strLeB_antisymm {a b : Str} (h₁ : strLeB a b = true) (h₂ : strLeB b a = true) :
    a = b := by
  unfold strLeB at h₁ h₂
  simp only [Bool.not_eq_true'] at h₁ h₂
  exact (strLtB_connex h₂ h₁)

/-! ### Association-list model of `BTreeMap<String, V>` -/

/-- First-match lookup, modelling `BTreeMap::get` (keys are unique by
construction, so first-match agrees with map lookup). -/
def alFind {β : Type} : List (Str × β) → Str → Option β
  | [], _ => none
  | (k', v') :: rest, k => if k = k' then some v' else alFind rest k

/-- Sorted insert that replaces an existing equal key, modelling
`BTreeMap::insert` (and `entry().or_insert` when the key is absent). -/
def alInsert {β : Type} (k : Str) (v : β) : List (Str × β) → List (Str × β)
  | [] => [(k, v)]
  | (k', v') :: rest =>
    if strLtB k k' then (k, v) :: (k', v') :: rest
    else if k = k' then (k, v) :: rest
    else (k', v') :: alInsert k v rest

/-- In-place update of the value stored at `k`, modelling `get_mut`. -/
def alModify {β : Type} (k : Str) (f : β → β) : List (Str × β) → List (Str × β)
  | [] => []
  | (k', v') :: rest =>
    if k = k' then (k', f v') :: rest else (k', v') :: alModify k f rest

theorem alFind_alInsert {β : Type} (k : Str) (v : β) (m : List (Str × β)) (k' : Str) :
    alFind (alInsert k v m) k' = if k' = k then some v else alFind m k' := by
  induction m with
  | nil => by_cases h : k' = k <;> simp [alInsert, alFind, h]
  | cons e rest ih =>
    obtain ⟨k₀, v₀⟩ := e
    by_cases hlt : strLtB k k₀ = true
    · simp only [alInsert, hlt, if_true]
      by_cases h : k' = k <;> simp [alFind, h]
    · by_cases heq : k = k₀
      · subst heq
        simp only [alInsert, hlt, if_false, if_true, Bool.false_eq_true]
        by_cases h : k' = k <;> simp [alFind, h]
      · simp only [alInsert, hlt, heq, if_false, Bool.false_eq_true]
        by_cases h0 : k' = k₀
        · subst h0
          have h : ¬ k' = k := fun hb => heq hb.symm
          simp [alFind, h]
        · simp [alFind, h0, ih]

theorem alFind_alModify {β : Type} (k : Str) (f : β → β) (m : List (Str × β)) (k' : Str) :
    alFind (alModify k f m) k' =
      if k' = k then (alFind m k).map f else alFind m k' := by
  induction m with
  | nil => by_cases h : k' = k <;> simp [alModify, alFind, h]
  | cons e rest ih =>
    obtain ⟨k₀, v₀⟩ := e
    by_cases heq : k = k₀
    · subst heq
      simp only [alModify, if_true]
      by_cases h : k' = k <;> simp [alFind, h]
    · simp only [alModify, heq, if_false]
      by_cases h0 : k' = k₀
      · subst h0
        have h : ¬ k' = k := fun hb => heq hb.symm
        simp [alFind, h]
      · simp [alFind, h0, heq, ih]

theorem mem_alInsert {β : Type} (k : Str) (v : β) :
    ∀ (m : List (Str × β)) (e : Str × β),
      e ∈ alInsert k v m → e = (k, v) ∨ e ∈ m
  | [], e, h => by simpa [alInsert] using h
  | (k₀, v₀) :: rest, e, h => by
    by_cases hlt : strLtB k k₀
    · simp only [alInsert, hlt, if_true, List.mem_cons] at h
      rcases h with h | h | h
      · exact Or.inl h
      · exact Or.inr (by simp [h])
      · exact Or.inr (by simp [h])
    · by_cases heq : k = k₀
      · subst heq
        simp only [alInsert, hlt, Bool.false_eq_true, if_false, if_true,
          List.mem_cons] at h
        rcases h with h | h
        · exact Or.inl h
        · exact Or.inr (List.mem_cons_of_mem _ h)
      · simp only [alInsert, hlt, heq, Bool.false_eq_true, if_false,
          List.mem_cons] at h
        rcases h with h | h
        · exact Or.inr (by simp [h])
        · rcases mem_alInsert k v rest e h with h' | h'
          · exact Or.inl h'
          · exact Or.inr (by simp [h'])

theorem mem_alModify {β : Type} (k : Str) (f : β → β) :
    ∀ (m : List (Str × β)) (e : Str × β),
      e ∈ alModify k f m → e ∈ m ∨ ∃ v, (k, v) ∈ m ∧ e = (k, f v)
  | [], e, h => by simp [alModify] at h
  | (k₀, v₀) :: rest, e, h => by
    by_cases heq : k = k₀
    · subst heq
      simp [alModify] at h
      rcases h with h | h
      · exact Or.inr ⟨v₀, by simp [h]⟩
      · exact Or.inl (by simp [h])
    · simp [alModify, heq] at h
      rcases h with h | h
      · exact Or.inl (by simp [h])
      · rcases mem_alModify k f rest e h with h' | ⟨v, hv, he⟩
        · exact Or.inl (by simp [h'])
        · exact Or.inr ⟨v, by simp [hv], he⟩

theorem alFind_mem {β : Type} :
    ∀ {m : List (Str × β)} {k : Str} {v : β}, alFind m k = some v → (k, v) ∈ m
  | [], k, v, h => by simp [alFind] at h
  | (k₀, v₀) :: rest, k, v, h => by
    by_cases heq : k = k₀
    · subst heq
      simp [alFind] at h
      simp [h]
    · simp [alFind, heq] at h
      exact List.mem_cons_of_mem _ (alFind_mem h)

/-! ### Decimal rendering of `usize`, as used by `format!("{}")` -/

/-- One decimal digit. -/
def digitChar : Nat → Char
  | 0 => '0' | 1 => '1' | 2 => '2' | 3 => '3' | 4 => '4'
  | 5 => '5' | 6 => '6' | 7 => '7' | 8 => '8' | _ => '9'

/-- Digit accumulator; `fuel` dominates the number of digits, so the `0`
case is unreachable for the fuel `natToChars` supplies. -/
def natDigitsAux : Nat → Nat → Str → Str
  | 0, _, acc => acc
  | fuel + 1, n, acc =>
    if n < 10 then digitChar n :: acc
    else natDigitsAux fuel (n / 10) (digitChar (n % 10) :: acc)

/-- Decimal rendering of a natural number (`format!("{}", n)` in Rust). -/
def natToChars (n : Nat) : Str := natDigitsAux (n + 1) n []

/-! ### IR (`src/ir.rs`)

`CardDoc.abs_path` and `CardAction.data` are carried by the Rust IR only for
serialization into the manifest; no function under verification reads them,
so the embedding omits them. -/

/-- Warning kinds from `src/ir.rs`.  The spec's taxonomy maps onto these:
`ParseError` ↦ `invalidJson`, `ShapeWarning` ↦ `ignoredFile`,
`IdentityConflict`/`DuplicateRouteKey`/`OrderingConflict` ↦ `inconsistent`,
`MissingRouteTarget` ↦ `missingTarget`, `MissingFlowIdentity` ↦ `missingFlow`,
`DuplicateCardIdentity` ↦ `duplicateCardId`. -/
inductive WarningKind where
  | inconsistent
  | missingTarget
  | missingFlow
  | missingCardId
  | duplicateCardId
  | invalidJson
  | ignoredFile
  | packOutput
  | validation
deriving DecidableEq, Repr

structure Warning where
  kind : WarningKind
  message : Str
deriving DecidableEq, Repr

/-- `diagnostics::warning`. -/
def warning (kind : WarningKind) (message : Str) : Warning := ⟨kind, message⟩

inductive RouteTarget where
  | step (name : Str)
  | cardId (name : Str)
deriving DecidableEq, Repr

structure CardAction where
  action_type : Str
  title : Option Str
  target : Option RouteTarget
deriving DecidableEq, Repr

structure CardDoc where
  rel_path : Str
  card_id : Str
  flow_name : Str
  actions : List CardAction
deriving DecidableEq, Repr

structure FlowGroup where
  flow_name : Str
  cards : List CardDoc
deriving DecidableEq, Repr

/-! ### Graph builder (`src/graph.rs`) -/

structure RouteEdge where
  key : Str
  target : Str
deriving DecidableEq, Repr

structure FlowNode where
  name : Str
  card_path : Option Str
  routes : List RouteEdge
  stub : Bool
deriving DecidableEq, Repr

structure FlowGraph where
  flow_name : Str
  nodes : List (Str × FlowNode)
  warnings : List Warning
deriving DecidableEq, Repr

/-- `entry(k).or_insert(v)`: keep an existing binding, insert `v` otherwise. -/
def alEntryOr {β : Type} (k : Str) (v : β) (m : List (Str × β)) : List (Str × β) :=
  match alFind m k with
  | some _ => m
  | none => alInsert k v m

/-- `BTreeSet::insert` (sets are only ever queried by membership here). -/
def setInsert (k : Str) (s : List Str) : List Str :=
  if k ∈ s then s else k :: s

/-- The `assets/cards/{rel_path}` asset path attached to a card's node. -/
def assetPath (rel : Str) : Str := str "assets/cards/" ++ rel

/-- `graph::route_key_for_action`: target's literal name, else non-empty
title, else `action-<index+1>`. -/
def routeKeyForAction (action : CardAction) (target : RouteTarget) (index : Nat) : Str :=
  let base := match target with
    | .step value => value
    | .cardId value => value
  if base ≠ [] then base
  else match action.title with
    | some title => if title ≠ [] then title else str "action-" ++ natToChars (index + 1)
    | none => str "action-" ++ natToChars (index + 1)

/-- `key ++ "-" ++ n` rendered as by `format!("{}-{}", key, suffix)`. -/
def suffixedKey (key : Str) (n : Nat) : Str := key ++ '-' :: natToChars n

/-- The `while used_keys.contains(...)` suffix search.  The Rust loop
terminates because only finitely many suffixes can be taken; fuel
`used.length + 1` dominates the number of iterations (see
`firstFreeSuffix_not_mem`), so the out-of-fuel branch is unreachable. -/
def firstFreeSuffix (used : List Str) (key : Str) : Nat → Nat → Str
  | 0, n => suffixedKey key n
  | fuel + 1, n =>
    if suffixedKey key n ∈ used then firstFreeSuffix used key fuel (n + 1)
    else suffixedKey key n

/-- The per-action loop body of `graph::build_flow_graph` (stub synthesis,
route-key selection and deduplication), over `enumerate()`d actions. -/
def buildRoutes (strict : Bool) (flowName cardId : Str) :
    List (Nat × CardAction) → List (Str × FlowNode) → List Warning → List Str →
    List RouteEdge → Except Str (List (Str × FlowNode) × List Warning × List RouteEdge)
  | [], nodes, ws, _, routes => .ok (nodes, ws, routes)
  | (index, action) :: rest, nodes, ws, used, routes =>
    match action.target with
    | none => buildRoutes strict flowName cardId rest nodes ws used routes
    | some target =>
      let targetName := match target with
        | .step name => name
        | .cardId name => name
      let stubbed : Except Str (List (Str × FlowNode) × List Warning) :=
        match alFind nodes targetName with
        | some _ => .ok (nodes, ws)
        | none =>
          if strict then
            .error (str "missing target " ++ targetName ++ str " referenced from card "
              ++ cardId ++ str " in flow " ++ flowName)
          else
            .ok (alInsert targetName ⟨targetName, none, [], true⟩ nodes,
              ws ++ [warning .missingTarget
                (str "missing target " ++ targetName ++ str " referenced from card "
                  ++ cardId ++ str " in flow " ++ flowName ++ str "; creating stub")])
      match stubbed with
      | .error e => .error e
      | .ok (nodes, ws) =>
        let key := routeKeyForAction action target index
        let (key, ws) :=
          if key ∈ used then
            let newKey := firstFreeSuffix used key (used.length + 1) 2
            (newKey,
              ws ++ [warning .inconsistent
                (str "duplicate route key " ++ key ++ str " in card " ++ cardId
                  ++ str "; renamed to " ++ newKey)])
          else (key, ws)
        buildRoutes strict flowName cardId rest nodes ws (setInsert key used)
          (routes ++ [⟨key, targetName⟩])

/-- The per-card loop of `graph::build_flow_graph`'s second phase. -/
def buildCards (strict : Bool) (flowName : Str) :
    List CardDoc → List (Str × FlowNode) → List Warning →
    Except Str (List (Str × FlowNode) × List Warning)
  | [], nodes, ws => .ok (nodes, ws)
  | card :: rest, nodes, ws =>
    match buildRoutes strict flowName card.card_id card.actions.enum nodes ws [] [] with
    | .error e => .error e
    | .ok (nodes, ws, routes) =>
      buildCards strict flowName rest
        (alModify card.card_id (fun n => { n with routes := n.routes ++ routes }) nodes) ws

/-- `graph::build_flow_graph`. -/
def buildFlowGraph (group : FlowGroup) (strict : Bool) : Except Str FlowGraph :=
  match buildCards strict group.flow_name group.cards
      (group.cards.foldl
        (fun m c => alEntryOr c.card_id ⟨c.card_id, some (assetPath c.rel_path), [], false⟩ m)
        []) [] with
  | .error e => .error e
  | .ok (nodes, ws) => .ok ⟨group.flow_name, nodes, ws⟩

/-! ### Node orderer and flow emitter (`src/emit_flow.rs`) -/

/-- The proposition form of `strLeB`, for Mathlib's stable `insertionSort`
(Rust's `Vec::sort` is a stable sort by `Ord`; for keys of type `String`
any stable comparison sort computes the same function of the input list). -/
def strLe (a b : Str) : Prop := strLeB a b = true

instance : DecidableRel strLe := fun a b => by
  unfold strLe
  infer_instance

instance : IsTotal Str strLe := ⟨strLeB_total⟩

instance : IsTrans Str strLe := ⟨fun _ _ _ => strLeB_trans⟩

/-- `Vec::<String>::sort()`. -/
def sortStrs (l : List Str) : List Str := List.insertionSort strLe l

/-- The inner `for child in children` loop of `resolve_node_order`:
saturating decrement of each child's counter, pushing (and re-sorting) the
ready queue whenever a counter reaches zero. -/
def orderChildren : List Str → List (Str × Nat) → List Str → List (Str × Nat) × List Str
  | [], indeg, queue => (indeg, queue)
  | child :: rest, indeg, queue =>
    match alFind indeg child with
    | none => orderChildren rest indeg queue
    | some cnt =>
      let cnt' := cnt - 1
      let indeg' := alModify child (fun _ => cnt') indeg
      if cnt' = 0 then orderChildren rest indeg' (sortStrs (queue ++ [child]))
      else orderChildren rest indeg' queue

/-- The `while let Some(node) = queue.pop()` loop of `resolve_node_order`.
`Vec::pop` takes the sorted queue's last (lexicographically largest) entry.
The Rust loop terminates because every node enters the queue at most once
(a counter reaches zero exactly once); the fuel passed by
`resolveNodeOrder` strictly dominates that iteration count, so the
out-of-fuel branch is unreachable. -/
def orderLoop (deps : List (Str × List Str)) :
    Nat → List (Str × Nat) → List Str → List Str → List Str
  | 0, _, _, ordered => ordered
  | fuel + 1, indeg, queue, ordered =>
    match queue.getLast? with
    | none => ordered
    | some node =>
      let rest := queue.dropLast
      let children := (alFind deps node).getD []
      let (indeg', queue') := orderChildren children indeg rest
      orderLoop deps fuel indeg' queue' (ordered ++ [node])

/-- `emit_flow::resolve_node_order`.  Note that the Rust code increments
`indegree[node.name]` once per outgoing route whose target is in the graph
(the *source's* counter, i.e. an out-degree), and registers the source as a
dependent of the *target*; the loop therefore orders a node only after all
its in-graph route targets. -/
def resolveNodeOrder (graph : FlowGraph) : List Str :=
  let indeg0 : List (Str × Nat) := graph.nodes.map (fun kv => (kv.1, 0))
  let st := graph.nodes.foldl
    (fun st kv =>
      kv.2.routes.foldl
        (fun st route =>
          if (alFind graph.nodes route.target).isSome then
            (alModify kv.2.name (· + 1) (alEntryOr kv.2.name 0 st.1),
             alModify route.target (· ++ [kv.2.name]) (alEntryOr route.target [] st.2))
          else st)
        st)
    (indeg0, ([] : List (Str × List Str)))
  let queue0 := sortStrs ((st.1.filter (fun kv => kv.2 = 0)).map Prod.fst)
  let n := graph.nodes.length
  let ordered := orderLoop st.2 (n * n + n + 2) st.1 queue0 []
  if ordered.length = graph.nodes.length then ordered
  else ordered ++ sortStrs ((graph.nodes.map Prod.fst).filter (fun k => ! decide (k ∈ ordered)))

/-- `emit_flow::resolve_routes`: split a node's routes into those whose
target was already created in this pass and those skipped. -/
def resolveRoutes (node : FlowNode) (created : List Str) : List Str × List Str :=
  node.routes.foldl
    (fun acc route =>
      if route.target ∈ created then (acc.1 ++ [route.target], acc.2)
      else (acc.1, acc.2 ++ [route.target]))
    ([], [])

/-- The routing flag passed to the external flow compiler for one node. -/
inductive Directive where
  | routingOut
  | next (target : Str)
  | multi (targets : List Str)
deriving DecidableEq, Repr

/-- `emit_flow::push_routing_flags`: zero resolvable routes always produce
`--routing-out` *and* a `MissingTarget` warning; one produces
`--routing-next`; two or more produce `--routing-multi-to` with the targets
in discovery order. -/
def pushRoutingFlags (nodeId : Str) (routes : List Str) : Directive × List Warning :=
  match routes with
  | [] =>
    (.routingOut,
      [warning .missingTarget (str "no routes for " ++ nodeId ++ str "; using routing-out")])
  | [t] => (.next t, [])
  | ts => (.multi ts, [])

/-- One `add-step` instruction sent to the external `greentic-flow` process:
node id, the JSON payload's card asset path (`"TODO"` for stubs), its
`interaction.enabled` flag, and the routing directive.  The fixed component
reference, operation name and constant payload fields are omitted. -/
structure Step where
  node_id : Str
  card_path_value : Str
  needs_interaction : Bool
  directive : Directive
deriving DecidableEq, Repr

/-- The per-node loop of `emit_flow::generate_flow_with_cli`, recording the
instruction stream instead of spawning the external process (whose non-zero
exit would abort both modes identically). -/
def generateNodes (strict : Bool) (graph : FlowGraph) :
    List Str → List Str → List Step → List Warning → Except Str (List Step × List Warning)
  | [], _, steps, ws => .ok (steps, ws)
  | nodeId :: order, created, steps, ws =>
    match alFind graph.nodes nodeId with
    | none => .error (str "missing node " ++ nodeId)
    | some node =>
      let rs := resolveRoutes node created
      let wsSkip : Except Str (List Warning) :=
        if rs.2 = [] then .ok ws
        else if strict then
          .error (str "unable to emit routing for " ++ nodeId
            ++ str " due to cycle/ordering: " ++ List.intercalate (str ", ") rs.2)
        else
          .ok (ws ++ rs.2.map (fun target =>
            warning .inconsistent (str "routing from " ++ nodeId ++ str " to " ++ target
              ++ str " omitted due to ordering; check for cycles")))
      match wsSkip with
      | .error e => .error e
      | .ok ws =>
        let cp : Str × List Warning :=
          match node.card_path with
          | some p => (p, ws)
          | none =>
            (str "TODO",
              ws ++ [warning .missingTarget
                (str "stub node " ++ nodeId ++ str " emitted without card_path")])
        let needsInteraction := ! node.routes.isEmpty
        let df := pushRoutingFlags nodeId rs.1
        generateNodes strict graph order (setInsert nodeId created)
          (steps ++ [⟨nodeId, cp.1, needsInteraction, df.1⟩]) (cp.2 ++ df.2)

/-- `emit_flow::generate_flow_with_cli`, modelled as the instruction stream
plus accumulated warnings. -/
def generateFlow (graph : FlowGraph) (strict : Bool) : Except Str (List Step × List Warning) :=
  generateNodes strict graph (resolveNodeOrder graph) [] [] []

/-- `emit_flow::emit_flow` always writes `flows_dir.join("main.ygtc")`,
independently of the graph; the returned path, relative to the workspace
root. -/
def emitFlowPath (_graph : FlowGraph) : Str := str "flows/main.ygtc"

def beginMarker : Str := str "# BEGIN GENERATED (cards2pack)"

def endMarker : Str := str "# END GENERATED (cards2pack)"

/-- Helper for `str::find`: first match of `pat` at or after the current
position. -/
def findSubAux (pat : Str) : Str → Nat → Option Nat
  | [], i => if pat = [] then some i else none
  | c :: rest, i =>
    if pat.isPrefixOf (c :: rest) then some i else findSubAux pat rest (i + 1)

/-- `str::find(pattern)`: index of the first occurrence.  Rust reports byte
offsets and the model reports character offsets, but both slice at the same
occurrence boundary, so the slices below coincide with Rust's. -/
def findSub (s pat : Str) : Option Nat := findSubAux pat s 0

/-- `existing[end..].find('\n').map(|idx| end + idx + 1)`: one past the end
of the line containing position `e`. -/
def lineEndFrom (s : Str) (e : Nat) : Option Nat :=
  match findSub (s.drop e) ['\n'] with
  | some idx => some (e + idx + 1)
  | none => none

/-- `emit_flow::replace_generated_block`. -/
def replaceGeneratedBlock (existing block : Str) : Str :=
  let fallback :=
    if existing.all (fun c => c.isWhitespace) then
      block ++ str "\n# Developer space below (preserved on regen)\n"
    else block ++ '\n' :: existing
  match findSub existing beginMarker, findSub existing endMarker with
  | some s, some e =>
    if e > s then
      let after :=
        match lineEndFrom existing e with
        | some idx => existing.drop idx
        | none => []
      existing.take s ++ block ++ after
    else fallback
  | _, _ => fallback

/-! ### Concrete scenarios used by the claims -/

/-- Unwrap a successfully built graph (scenario builders below all succeed). -/
def getOkGraph (r : Except Str FlowGraph) : FlowGraph :=
  match r with
  | .ok g => g
  | .error _ => ⟨[], [], []⟩

/-- The spec's ordering scenario: A routes to B, B routes to C, C has no
routes. -/
def abcGroup : FlowGroup :=
  ⟨str "demo",
    [⟨str "a.json", str "A", str "demo", [⟨str "Action.Submit", none, some (.step (str "B"))⟩]⟩,
     ⟨str "b.json", str "B", str "demo", [⟨str "Action.Submit", none, some (.step (str "C"))⟩]⟩,
     ⟨str "c.json", str "C", str "demo", []⟩]⟩

def abcGraph : FlowGraph := getOkGraph (buildFlowGraph abcGroup true)

/-- The spec's cycle scenario: A routes to B and B routes to A. -/
def cycleGroup : FlowGroup :=
  ⟨str "demo",
    [⟨str "a.json", str "A", str "demo", [⟨str "Action.Submit", none, some (.step (str "B"))⟩]⟩,
     ⟨str "b.json", str "B", str "demo", [⟨str "Action.Submit", none, some (.step (str "A"))⟩]⟩]⟩

def cycleGraph : FlowGraph := getOkGraph (buildFlowGraph cycleGroup true)

/-- A single genuinely route-less (intentionally terminal) card. -/
def soloGroup : FlowGroup :=
  ⟨str "demo", [⟨str "solo.json", str "solo", str "demo", []⟩]⟩

def soloGraph : FlowGraph := getOkGraph (buildFlowGraph soloGroup true)

/-- Two graphs that differ only in their flow name. -/
def alphaGraph : FlowGraph := ⟨str "alpha", [], []⟩

def betaGraph : FlowGraph := ⟨str "beta", [], []⟩

/-! ### C1 — node ordering -/

/-- C1: the claim states that for {A routes to B, B routes to C, C without
routes} `resolve_node_order` returns [A, B, C]; on the code it does not
(the orderer counts each node's *outgoing* in-graph edges and seeds the
queue with sink nodes, so it returns [C, B, A]). -/
theorem c1_order_abc_counterexample :
    resolveNodeOrder abcGraph ≠ [str "A", str "B", str "C"] := by decide

/-- C1 (amended): the orderer is Kahn's algorithm on the reversed graph —
each node's counter is its number of routes with in-graph targets, a node
is ready once all its targets are ordered, and the lexicographically
largest ready node is taken first — so for {A→B, B→C, C} it returns
[C, B, A]; node creation in that order is exactly what lets the emitter
render A→next(B), B→next(C) and C→terminal, as the spec's scenario
expects. -/
theorem c1_order_abc_amended :
    resolveNodeOrder abcGraph = [str "C", str "B", str "A"] ∧
    generateFlow abcGraph true = .ok
      ([⟨str "C", assetPath (str "c.json"), false, .routingOut⟩,
        ⟨str "B", assetPath (str "b.json"), true, .next (str "C")⟩,
        ⟨str "A", assetPath (str "a.json"), true, .next (str "B")⟩],
       [warning .missingTarget (str "no routes for C; using routing-out")]) := by
  constructor <;> rfl

/-! ### C2 — output paths -/

/-- C2: the claim states distinct flow names yield distinct `emit_flow`
output paths; on the code `emit_flow` joins the constant file name
`main.ygtc` for every graph, so two graphs with different flow names get
the same path. -/
theorem c2_flow_path_counterexample :
    emitFlowPath alphaGraph = emitFlowPath betaGraph ∧
    alphaGraph.flow_name ≠ betaGraph.flow_name := by
  constructor
  · rfl
  · decide

/-- C2 (amended): every generation run writes the one reserved file
`flows/main.ygtc`, regardless of the resolved flow name; there is no
per-flow file name. -/
theorem c2_flow_path_amended :
    ∀ g₁ g₂ : FlowGraph,
      emitFlowPath g₁ = str "flows/main.ygtc" ∧ emitFlowPath g₁ = emitFlowPath g₂ :=
  fun _ _ => ⟨rfl, rfl⟩

/-! ### C5 — two-node cycle -/

/-- C5: for the two-node cycle {A routes to B, B routes to A} the orderer
appends both nodes sorted ascending ([A, B]); strict generation always
fails on the first unrenderable edge, and lenient generation succeeds with
exactly the edge A→B omitted and recorded as an ordering-conflict warning
while B→A is rendered as a next-directive. -/
theorem c5_cycle_behaviour :
    resolveNodeOrder cycleGraph = [str "A", str "B"] ∧
    generateFlow cycleGraph true =
      .error (str "unable to emit routing for A due to cycle/ordering: B") ∧
    generateFlow cycleGraph false = .ok
      ([⟨str "A", assetPath (str "a.json"), true, .routingOut⟩,
        ⟨str "B", assetPath (str "b.json"), true, .next (str "A")⟩],
       [warning .inconsistent
          (str "routing from A to B omitted due to ordering; check for cycles"),
        warning .missingTarget (str "no routes for A; using routing-out")]) := by
  refine ⟨rfl, rfl, rfl⟩

/-! ### C9 — terminal nodes and warnings -/

/-- C9: the claim states a genuinely route-less node is rendered terminal
*without* a warning; on the code `push_routing_flags` pushes a
`MissingTarget` warning for every zero-route node, so the intentionally
terminal `solo` node is emitted with a warning. -/
theorem c9_terminal_warning_counterexample :
    generateFlow soloGraph false = .ok
      ([⟨str "solo", assetPath (str "solo.json"), false, .routingOut⟩],
       [warning .missingTarget (str "no routes for solo; using routing-out")]) ∧
    ([warning .missingTarget (str "no routes for solo; using routing-out")] : List Warning)
      ≠ [] := by
  constructor
  · rfl
  · decide

/-- C9 (amended): a node with zero resolvable routes is always rendered
with the terminal routing-out directive and is always accompanied by a
`MissingTarget` warning, whether its routes were skipped for ordering
reasons or it never had any; one and two-or-more resolvable routes produce
the next / multi directives with no warning from this step. -/
theorem c9_terminal_warning_amended :
    (∀ nodeId : Str, pushRoutingFlags nodeId [] =
      (.routingOut,
        [warning .missingTarget (str "no routes for " ++ nodeId ++ str "; using routing-out")])) ∧
    (∀ (nodeId t : Str), pushRoutingFlags nodeId [t] = (.next t, [])) ∧
    (∀ (nodeId t₁ t₂ : Str) (ts : List Str),
      pushRoutingFlags nodeId (t₁ :: t₂ :: ts) = (.multi (t₁ :: t₂ :: ts), [])) :=
  ⟨fun _ => rfl, fun _ _ => rfl, fun _ _ _ _ => rfl⟩

/-! ### C3 — developer-region preservation (`replace_generated_block`) -/

theorem findSubAux_bounds (pat : Str) :
    ∀ (s : Str) (j i : Nat), findSubAux pat s j = some i → j ≤ i ∧ i ≤ j + s.length
  | [], j, i, h => by
    by_cases hp : pat = ([] : Str)
    · simp [findSubAux, hp] at h
      omega
    · simp [findSubAux, hp] at h
  | c :: rest, j, i, h => by
    by_cases hp : pat.isPrefixOf (c :: rest) = true
    · simp [findSubAux, hp] at h
      omega
    · simp only [findSubAux, hp, Bool.false_eq_true, if_false] at h
      have := findSubAux_bounds pat rest (j + 1) i h
      simp only [List.length_cons]
      omega

theorem findSub_le_length {s pat : Str} {i : Nat} (h : findSub s pat = some i) :
    i ≤ s.length :=
  (findSubAux_bounds pat s 0 i h).2.trans (by omega)

/-- C3: merging a new GENERATED block into a document with a valid marker
pair (first end marker strictly after first begin marker) replaces exactly
the span from the begin marker through the end-marker's line: every
character before the begin marker and every character after the end-marker
line is unchanged (when no newline follows the end marker, nothing follows
that line and the tail is empty). -/
theorem c3_developer_region_preserved (existing block : Str) (s e : Nat)
    (hs : findSub existing beginMarker = some s)
    (he : findSub existing endMarker = some e)
    (hlt : s < e) :
    replaceGeneratedBlock existing block =
      existing.take s ++ block ++
        (match lineEndFrom existing e with
         | some idx => existing.drop idx
         | none => []) ∧
    (replaceGeneratedBlock existing block).take s = existing.take s ∧
    (∀ idx, lineEndFrom existing e = some idx →
      (replaceGeneratedBlock existing block).drop (s + block.length) =
        existing.drop idx) := by
  have hsl : s ≤ existing.length := findSub_le_length hs
  have htake : (existing.take s).length = s := by
    simp [List.length_take]
    omega
  have hmain : replaceGeneratedBlock existing block =
      existing.take s ++ block ++
        (match lineEndFrom existing e with
         | some idx => existing.drop idx
         | none => []) := by
    unfold replaceGeneratedBlock
    rw [hs, he]
    simp only [if_pos hlt]
  refine ⟨hmain, ?_, ?_⟩
  · rw [hmain, List.append_assoc, List.take_left' htake]
  · intro idx hidx
    rw [hmain, hidx]
    have hlen : (existing.take s ++ block).length = s + block.length := by
      simp [htake]
    exact List.drop_left' hlen

/-- Witness for C3 at the repository's own unit-test document: a document
containing a valid marker pair, `old` inside and `keep` outside. -/
theorem c3_developer_region_preserved_witness :
    replaceGeneratedBlock
        (str "# BEGIN GENERATED (cards2pack)\nold\n# END GENERATED (cards2pack)\nkeep\n")
        (str "# BEGIN GENERATED (cards2pack)\nnew\n# END GENERATED (cards2pack)\n") =
      str "" ++ str "# BEGIN GENERATED (cards2pack)\nnew\n# END GENERATED (cards2pack)\n"
        ++ str "keep\n" := by
  have h := c3_developer_region_preserved
    (str "# BEGIN GENERATED (cards2pack)\nold\n# END GENERATED (cards2pack)\nkeep\n")
    (str "# BEGIN GENERATED (cards2pack)\nnew\n# END GENERATED (cards2pack)\n")
    0 35 (by decide) (by decide) (by decide)
  rw [h.1]
  rfl

/-! ### Card scanner (`src/scan.rs`)

Files are presented to the model as records carrying the path relative to
the scan root (`cards_dir`), the `Path::extension()` of that path, and the
outcome of reading/parsing the file.  Messages that Rust renders with
`path.display()` are modelled with the relative path (the constant
`cards_dir` prefix carries no information).  The scanner only ever inspects
JSON strings, arrays and objects, so the embedding of `serde_json::Value`
keeps the other cases opaque. -/

inductive Json where
  | null
  | boolean (b : Bool)
  | num (n : Int)
  | jstr (s : Str)
  | arr (elems : List Json)
  | obj (fields : List (Str × Json))

/-- `serde_json::Map::get` (object keys are unique, first match). -/
def jsonGet (fields : List (Str × Json)) (k : Str) : Option Json := alFind fields k

def asStr : Json → Option Str
  | .jstr s => some s
  | _ => none

def asArr : Json → Option (List Json)
  | .arr l => some l
  | _ => none

def asObj : Json → Option (List (Str × Json))
  | .obj f => some f
  | _ => none

/-- The result of `fs::read_to_string` + `serde_json::from_str` for one
file: unreadable, readable but malformed JSON, or parsed. -/
inductive FileContent where
  | unreadable (err : Str)
  | malformed (err : Str)
  | parsed (v : Json)

structure FileRec where
  rel_path : Str
  ext : Option Str
  content : FileContent

inductive GroupBy where
  | folder
  | flowField
deriving DecidableEq, Repr

structure ScanConfig where
  group_by : Option GroupBy
  default_flow : Option Str
  strict : Bool

/-- ASCII lowercase folding on code points, for `eq_ignore_ascii_case`. -/
def toLowerNat (c : Char) : Nat :=
  if 65 ≤ c.toNat ∧ c.toNat ≤ 90 then c.toNat + 32 else c.toNat

def eqIgnoreAsciiCase : Str → Str → Bool
  | [], [] => true
  | a :: as, b :: bs => toLowerNat a = toLowerNat b && eqIgnoreAsciiCase as bs
  | _, _ => false

/-- The extension filter at the top of the scan loop: keep exactly the
files whose extension equals `json` case-insensitively. -/
def hasJsonExt (f : FileRec) : Bool :=
  match f.ext with
  | none => false
  | some e => eqIgnoreAsciiCase e (str "json")

/-- `Vec::dedup`: drop consecutive duplicates. -/
def dedupAdj : List Str → List Str
  | [] => []
  | [x] => [x]
  | x :: y :: rest =>
    if x = y then dedupAdj (y :: rest) else x :: dedupAdj (y :: rest)

/-- `scan::resolve_consistent_value`: empty input resolves to nothing; more
than one distinct value is an identity conflict (strict: error; lenient:
warning naming the sorted distinct values) resolved to `values[0]`, the
first value in encounter order; otherwise the single common value. -/
def resolveConsistentValue (values : List Str) (label relPath : Str) (strict : Bool) :
    Except Str (Option Str × List Warning) :=
  match values with
  | [] => .ok (none, [])
  | v0 :: _ =>
    let unique := dedupAdj (sortStrs values)
    if unique.length > 1 then
      let msg := str "inconsistent " ++ label ++ str " values in " ++ relPath
        ++ str ": " ++ List.intercalate (str ", ") unique
      if strict then .error msg
      else .ok (some v0, [warning .inconsistent msg])
    else .ok (some (unique.headD v0), [])

/-- The file-name part of a relative path (the suffix after the last
slash). -/
def afterLastSlash (p : Str) : Str :=
  p.foldl (fun acc c => if c = '/' then [] else acc ++ [c]) []

/-- Index of the last `.` within a file name, via the reversed string. -/
def lastDotIdx (name : Str) : Option Nat :=
  match findSub name.reverse ['.'] with
  | none => none
  | some revIdx => some (name.length - 1 - revIdx)

/-- `Path::file_stem` for the normal file names the scanner sees: the file
name up to its last dot, the whole name when there is no dot or only a
leading one, `none` for an empty name (the pathological `..`-style names
Rust also rejects cannot reach this code: the scanner only passes paths of
regular files that survived `strip_prefix`). -/
def fileStem (p : Str) : Option Str :=
  let name := afterLastSlash p
  if name = [] then none
  else
    match lastDotIdx name with
    | none => some name
    | some 0 => some name
    | some idx => some (name.take idx)

/-- Split a relative path into its slash-separated components. -/
def splitSlash : Str → List Str
  | [] => [[]]
  | c :: rest =>
    let r := splitSlash rest
    if c = '/' then [] :: r
    else
      match r with
      | [] => [[c]]
      | a :: tail => (c :: a) :: tail

/-- `scan::first_folder_component`: the first path segment, provided the
path has at least two components and the first is a normal name. -/
def firstFolderComponent (p : Str) : Option Str :=
  match splitSlash p with
  | first :: _ :: _ => if first = [] then none else some first
  | _ => none

/-- `scan::resolve_card_id`. -/
def resolveCardId (actionCardIds : List Str) (fields : List (Str × Json))
    (relPath : Str) (cfg : ScanConfig) : Except Str (Str × List Warning) :=
  match resolveConsistentValue actionCardIds (str "cardId") relPath cfg.strict with
  | .error e => .error e
  | .ok (some v, ws) => .ok (v, ws)
  | .ok (none, ws) =>
    match ((jsonGet fields (str "greentic")).bind asObj).bind
        (fun g => (jsonGet g (str "cardId")).bind asStr) with
    | some v => .ok (v, ws)
    | none =>
      match fileStem relPath with
      | some stem => .ok (stem, ws)
      | none => .error (str "unable to determine card id for " ++ relPath)

/-- `scan::resolve_flow_name`. -/
def resolveFlowName (actionFlowNames : List Str) (fields : List (Str × Json))
    (relPath : Str) (cfg : ScanConfig) : Except Str (Str × List Warning) :=
  match resolveConsistentValue actionFlowNames (str "flow") relPath cfg.strict with
  | .error e => .error e
  | .ok (some v, ws) => .ok (v, ws)
  | .ok (none, ws) =>
    match ((jsonGet fields (str "greentic")).bind asObj).bind
        (fun g => (jsonGet g (str "flow")).bind asStr) with
    | some v => .ok (v, ws)
    | none =>
      match (if cfg.group_by = some GroupBy.folder then firstFolderComponent relPath
             else none) with
      | some folder => .ok (folder, ws)
      | none =>
        match cfg.default_flow with
        | some d => .ok (d, ws)
        | none =>
          if cfg.strict then .error (str "unable to resolve flow name for " ++ relPath)
          else
            .ok (str "misc",
              ws ++ [warning .missingFlow
                (str "flow name missing for " ++ relPath ++ str "; using misc")])

/-- Accumulator of the per-action loop inside the scanner. -/
structure ActionScan where
  ws : List Warning
  cardIds : List Str
  flowNames : List Str
  actions : List CardAction

/-- The `for action in actions_value` loop: skips non-object actions with a
warning, collects `data.cardId` / `data.flow` occurrences, and builds each
`CardAction` (kind defaulting to `Unknown`, `data.step` preferred over
`data.cardId` as target). -/
def extractActions (relPath : Str) (actionsValue : List Json) : ActionScan :=
  actionsValue.foldl
    (fun acc a =>
      match asObj a with
      | none =>
        { acc with
          ws := acc.ws ++ [warning .ignoredFile
            (str "ignored non-object action in " ++ relPath)] }
      | some aFields =>
        let actionType := ((jsonGet aFields (str "type")).bind asStr).getD (str "Unknown")
        let title := (jsonGet aFields (str "title")).bind asStr
        let dataObj := (jsonGet aFields (str "data")).bind asObj
        let cardIdVal := dataObj.bind (fun d => (jsonGet d (str "cardId")).bind asStr)
        let flowVal := dataObj.bind (fun d => (jsonGet d (str "flow")).bind asStr)
        let target : Option RouteTarget :=
          match dataObj.bind (fun d => (jsonGet d (str "step")).bind asStr) with
          | some s => some (.step s)
          | none => cardIdVal.map .cardId
        { acc with
          cardIds := acc.cardIds ++ cardIdVal.toList
          flowNames := acc.flowNames ++ flowVal.toList
          actions := acc.actions ++ [⟨actionType, title, target⟩] })
    ⟨[], [], [], []⟩

/-- The body of one `scan_cards` loop iteration past the card check. -/
def processCardObject (cfg : ScanConfig) (f : FileRec) (fields : List (Str × Json)) :
    Except Str (List Warning × Option CardDoc) :=
  let actionsValue := ((jsonGet fields (str "actions")).bind asArr).getD []
  let ex := extractActions f.rel_path actionsValue
  match resolveCardId ex.cardIds fields f.rel_path cfg with
  | .error e => .error e
  | .ok (cardId, ws1) =>
    match resolveFlowName ex.flowNames fields f.rel_path cfg with
    | .error e => .error e
    | .ok (flowName, ws2) =>
      .ok (ex.ws ++ ws1 ++ ws2, some ⟨f.rel_path, cardId, flowName, ex.actions⟩)

/-- One iteration of the `scan_cards` walk: extension filter, read failure,
parse failure, card classification, and card construction.  Returns the
warnings this file contributes and its `CardDoc`, if any. -/
def processFile (cfg : ScanConfig) (f : FileRec) :
    Except Str (List Warning × Option CardDoc) :=
  if ¬ hasJsonExt f then .ok ([], none)
  else
    match f.content with
    | .unreadable e =>
      .ok ([warning .invalidJson (str "failed to read " ++ f.rel_path ++ str ": " ++ e)],
        none)
    | .malformed e =>
      if cfg.strict then
        .error (str "invalid JSON in " ++ f.rel_path ++ str ": " ++ e)
      else
        .ok ([warning .invalidJson (str "invalid JSON in " ++ f.rel_path ++ str ": " ++ e)],
          none)
    | .parsed v =>
      match asObj v with
      | none =>
        .ok ([warning .ignoredFile (str "non-object JSON ignored: " ++ f.rel_path)], none)
      | some fields =>
        match (jsonGet fields (str "type")).bind asStr with
        | some t =>
          if t ≠ str "AdaptiveCard" then
            .ok ([warning .ignoredFile
              (str "non-AdaptiveCard JSON ignored: " ++ f.rel_path
                ++ str " (type=" ++ t ++ str ")")], none)
          else processCardObject cfg f fields
        | none =>
          if (jsonGet fields (str "actions")).isSome ∨ (jsonGet fields (str "body")).isSome then
            processCardObject cfg f fields
          else
            .ok ([warning .ignoredFile (str "non-card JSON ignored: " ++ f.rel_path)], none)

/-- The walk over all files, accumulating warnings and cards in
enumeration order and propagating the first error. -/
def scanFilesLoop (cfg : ScanConfig) : List FileRec → Except Str (List Warning × List CardDoc)
  | [] => .ok ([], [])
  | f :: rest =>
    match processFile cfg f with
    | .error e => .error e
    | .ok (ws, c) =>
      match scanFilesLoop cfg rest with
      | .error e => .error e
      | .ok (wsRest, cs) => .ok (ws ++ wsRest, c.toList ++ cs)

/-- `format!("duplicate card_id {} in flow {}: {} and {}", ..)`. -/
def dupMsg (cardId flowName existingPath newPath : Str) : Str :=
  str "duplicate card_id " ++ cardId ++ str " in flow " ++ flowName ++ str ": "
    ++ existingPath ++ str " and " ++ newPath

/-- The grouping loop of `scan_cards`: partition cards by flow name,
dropping a card whose `card_id` was already seen in its flow (strict:
error; lenient: `DuplicateCardId` warning).  `seen` maps each flow to the
`card_id -> rel_path` of its kept cards; in the duplicate branch Rust's
`entry().or_default()` finds the existing entry, so `seen` is unchanged. -/
def groupCards (strict : Bool) :
    List CardDoc → List (Str × List (Str × Str)) → List (Str × List CardDoc) →
    List Warning → Except Str (List (Str × List CardDoc) × List Warning)
  | [], _, flows, ws => .ok (flows, ws)
  | card :: rest, seen, flows, ws =>
    let flowSeen := (alFind seen card.flow_name).getD []
    match alFind flowSeen card.card_id with
    | some existingPath =>
      let msg := dupMsg card.card_id card.flow_name existingPath card.rel_path
      if strict then .error msg
      else groupCards strict rest seen flows (ws ++ [warning .duplicateCardId msg])
    | none =>
      groupCards strict rest
        (alInsert card.flow_name (alInsert card.card_id card.rel_path flowSeen) seen)
        (alInsert card.flow_name ((alFind flows card.flow_name).getD [] ++ [card]) flows)
        ws

/-- Sorting a flow's cards by relative path (`cards.sort_by(rel_path)`,
a stable sort). -/
def cardLe (a b : CardDoc) : Prop := strLe a.rel_path b.rel_path

instance : DecidableRel cardLe := fun a b => by
  unfold cardLe strLe
  infer_instance

def sortCards (cards : List CardDoc) : List CardDoc := List.insertionSort cardLe cards

/-- The parts of the scan manifest under verification (the timestamp,
echoed input config and derived diagnostics counters are omitted). -/
structure ScanOut where
  flows : List FlowGroup
  warnings : List Warning

/-- `scan::scan_cards`: walk the files, require at least one card (strict)
or warn (lenient), group by flow with duplicate-identity handling, then
sort each flow's cards by relative path; flows are emitted in sorted
flow-name order (`BTreeMap` iteration).  The strict empty-scan error
message carries the scanned directory, which the model leaves out. -/
def emptyCheck (strict : Bool) (ws : List Warning) (cards : List CardDoc) :
    Except Str (List Warning) :=
  if cards.isEmpty then
    if strict then .error (str "no Adaptive Card JSON files found")
    else .ok (ws ++ [warning .ignoredFile (str "no Adaptive Card JSON files found")])
  else .ok ws

def scanCards (cfg : ScanConfig) (files : List FileRec) : Except Str ScanOut :=
  match scanFilesLoop cfg files with
  | .error e => .error e
  | .ok (ws, cards) =>
    match emptyCheck cfg.strict ws cards with
    | .error e => .error e
    | .ok ws =>
      match groupCards cfg.strict cards [] [] ws with
      | .error e => .error e
      | .ok (flows, ws) =>
        .ok ⟨flows.map (fun kv => ⟨kv.1, sortCards kv.2⟩), ws⟩

/-! ### C6 — read/parse failures and the extension filter -/

theorem scanFilesLoop_mem_warnings {cfg : ScanConfig} :
    ∀ {files : List FileRec} {ws : List Warning} {cs : List CardDoc} {f : FileRec}
      {wf : List Warning} {c : Option CardDoc},
      scanFilesLoop cfg files = .ok (ws, cs) → f ∈ files →
      processFile cfg f = .ok (wf, c) → ∀ w ∈ wf, w ∈ ws := by
  intro files
  induction files with
  | nil => intro ws cs f wf c _ hmem; simp at hmem
  | cons g rest ih =>
    intro ws cs f wf c hloop hmem hproc w hw
    rcases List.mem_cons.mp hmem with hf | hf
    · subst hf
      simp only [scanFilesLoop] at hloop
      rw [hproc] at hloop
      cases hrest : scanFilesLoop cfg rest with
      | error e => rw [hrest] at hloop; simp at hloop
      | ok p =>
        rw [hrest] at hloop
        simp at hloop
        rw [← hloop.1]
        exact List.mem_append_left _ hw
    · simp only [scanFilesLoop] at hloop
      cases hg : processFile cfg g with
      | error e => rw [hg] at hloop; simp at hloop
      | ok p =>
        rw [hg] at hloop
        cases hrest : scanFilesLoop cfg rest with
        | error e => rw [hrest] at hloop; simp at hloop
        | ok q =>
          rw [hrest] at hloop
          simp at hloop
          rw [← hloop.1]
          exact List.mem_append_right _ (ih hrest hf hproc w hw)

theorem groupCards_warnings_extend {strict : Bool} :
    ∀ {cards : List CardDoc} {seen : List (Str × List (Str × Str))}
      {flows : List (Str × List CardDoc)} {ws : List Warning}
      {flows' : List (Str × List CardDoc)} {ws' : List Warning},
      groupCards strict cards seen flows ws = .ok (flows', ws') →
      ∃ extra, ws' = ws ++ extra := by
  intro cards
  induction cards with
  | nil =>
    intro seen flows ws flows' ws' h
    simp [groupCards] at h
    exact ⟨[], by simp [h.2]⟩
  | cons card rest ih =>
    intro seen flows ws flows' ws' h
    simp only [groupCards] at h
    cases hdup : alFind ((alFind seen card.flow_name).getD []) card.card_id with
    | some existingPath =>
      rw [hdup] at h
      simp only [] at h
      by_cases hstrict : strict = true
      · rw [if_pos hstrict] at h
        simp at h
      · rw [if_neg hstrict] at h
        rcases ih h with ⟨extra, hex⟩
        refine ⟨warning .duplicateCardId
          (dupMsg card.card_id card.flow_name existingPath card.rel_path) :: extra, ?_⟩
        rw [hex]
        simp
    | none =>
      rw [hdup] at h
      exact ih h

theorem scanCards_warnings_mem {cfg : ScanConfig} {files : List FileRec} {out : ScanOut}
    (h : scanCards cfg files = .ok out) {f : FileRec} {wf : List Warning}
    {c : Option CardDoc} (hmem : f ∈ files) (hproc : processFile cfg f = .ok (wf, c)) :
    ∀ w ∈ wf, w ∈ out.warnings := by
  intro w hw
  unfold scanCards at h
  cases hloop : scanFilesLoop cfg files with
  | error e => rw [hloop] at h; simp at h
  | ok p =>
    obtain ⟨ws, cards⟩ := p
    rw [hloop] at h
    simp only [] at h
    have hmemws : w ∈ ws := scanFilesLoop_mem_warnings hloop hmem hproc w hw
    unfold emptyCheck at h
    by_cases hempty : cards.isEmpty = true
    · rw [if_pos hempty] at h
      by_cases hstrict : cfg.strict = true
      · rw [if_pos hstrict] at h
        simp at h
      · rw [if_neg hstrict] at h
        simp only [] at h
        cases hgrp : groupCards cfg.strict cards [] []
            (ws ++ [warning .ignoredFile (str "no Adaptive Card JSON files found")]) with
        | error e => rw [hgrp] at h; simp at h
        | ok q =>
          rw [hgrp] at h
          simp only [Except.ok.injEq] at h
          rcases groupCards_warnings_extend hgrp with ⟨extra, hex⟩
          rw [← h]
          simp only [hex]
          rw [List.append_assoc]
          exact List.mem_append_left _ hmemws
    · rw [if_neg hempty] at h
      simp only [] at h
      cases hgrp : groupCards cfg.strict cards [] [] ws with
      | error e => rw [hgrp] at h; simp at h
      | ok q =>
        rw [hgrp] at h
        simp only [Except.ok.injEq] at h
        rcases groupCards_warnings_extend hgrp with ⟨extra, hex⟩
        rw [← h]
        simp only [hex]
        exact List.mem_append_left _ hmemws

theorem processFile_unreadable {cfg : ScanConfig} {f : FileRec} {e : Str}
    (hext : hasJsonExt f = true) (hc : f.content = .unreadable e) :
    processFile cfg f =
      .ok ([warning .invalidJson (str "failed to read " ++ f.rel_path ++ str ": " ++ e)],
        none) := by
  unfold processFile
  rw [hc]
  simp [hext]

theorem processFile_malformed_strict {cfg : ScanConfig} {f : FileRec} {e : Str}
    (hstrict : cfg.strict = true) (hext : hasJsonExt f = true)
    (hc : f.content = .malformed e) :
    processFile cfg f = .error (str "invalid JSON in " ++ f.rel_path ++ str ": " ++ e) := by
  unfold processFile
  rw [hc]
  simp [hext, hstrict]

theorem processFile_malformed_lenient {cfg : ScanConfig} {f : FileRec} {e : Str}
    (hstrict : cfg.strict = false) (hext : hasJsonExt f = true)
    (hc : f.content = .malformed e) :
    processFile cfg f =
      .ok ([warning .invalidJson (str "invalid JSON in " ++ f.rel_path ++ str ": " ++ e)],
        none) := by
  unfold processFile
  rw [hc]
  simp [hext, hstrict]

theorem processFile_skip {cfg : ScanConfig} {f : FileRec} (hext : hasJsonExt f = false) :
    processFile cfg f = .ok ([], none) := by
  unfold processFile
  simp [hext]

theorem scanFilesLoop_err {cfg : ScanConfig} :
    ∀ {files : List FileRec} {f : FileRec} {e : Str},
      f ∈ files → processFile cfg f = .error e →
      ∃ msg, scanFilesLoop cfg files = .error msg := by
  intro files
  induction files with
  | nil => intro f e hmem; simp at hmem
  | cons g rest ih =>
    intro f e hmem hproc
    rcases List.mem_cons.mp hmem with hf | hf
    · subst hf
      exact ⟨e, by simp only [scanFilesLoop]; rw [hproc]⟩
    · cases hg : processFile cfg g with
      | error e' => exact ⟨e', by simp only [scanFilesLoop]; rw [hg]⟩
      | ok p =>
        rcases ih hf hproc with ⟨msg, hmsg⟩
        refine ⟨msg, ?_⟩
        simp only [scanFilesLoop]
        rw [hg, hmsg]

theorem scanCards_err_of_loop_err {cfg : ScanConfig} {files : List FileRec} {e : Str}
    (h : scanFilesLoop cfg files = .error e) : scanCards cfg files = .error e := by
  unfold scanCards
  rw [h]

theorem scanFilesLoop_skip {cfg : ScanConfig} {f : FileRec} (files : List FileRec)
    (hext : hasJsonExt f = false) :
    scanFilesLoop cfg (f :: files) = scanFilesLoop cfg files := by
  simp only [scanFilesLoop]
  rw [processFile_skip hext]
  cases h : scanFilesLoop cfg files with
  | error e => rfl
  | ok p => simp

/-- C6: the claim states both unreadable and malformed files abort a strict
scan; on the code only malformed JSON does — a strict scan containing an
unreadable `.json` file (plus one valid card) completes successfully,
merely recording the read failure as a warning. -/
theorem c6_strict_unreadable_counterexample :
    (⟨none, some (str "demo"), true⟩ : ScanConfig).strict = true ∧
    scanCards ⟨none, some (str "demo"), true⟩
        [⟨str "u.json", some (str "json"), .unreadable (str "io")⟩,
         ⟨str "a.json", some (str "json"),
           .parsed (.obj [(str "type", .jstr (str "AdaptiveCard")),
                          (str "actions", .arr [])])⟩] =
      .ok ⟨[⟨str "demo", [⟨str "a.json", str "a", str "demo", []⟩]⟩],
           [warning .invalidJson (str "failed to read u.json: io")]⟩ := by
  constructor
  · rfl
  · rfl

/-- C6 (amended): a file that cannot be read yields a ParseError-kind
(`InvalidJson`) warning in *both* modes — it never aborts the scan; only
malformed JSON aborts in strict mode (and yields the warning in lenient
mode); files without a `.json` extension are skipped with no warning at
all and contribute nothing to the scan. -/
theorem c6_scan_failures_amended :
    (∀ (cfg : ScanConfig) (files : List FileRec) (out : ScanOut) (f : FileRec) (e : Str),
      scanCards cfg files = .ok out → f ∈ files → hasJsonExt f = true →
      f.content = .unreadable e →
      warning .invalidJson (str "failed to read " ++ f.rel_path ++ str ": " ++ e)
        ∈ out.warnings) ∧
    (∀ (cfg : ScanConfig) (files : List FileRec) (f : FileRec) (e : Str),
      cfg.strict = true → f ∈ files → hasJsonExt f = true → f.content = .malformed e →
      ∃ msg, scanCards cfg files = .error msg) ∧
    (∀ (cfg : ScanConfig) (files : List FileRec) (out : ScanOut) (f : FileRec) (e : Str),
      cfg.strict = false → scanCards cfg files = .ok out → f ∈ files →
      hasJsonExt f = true → f.content = .malformed e →
      warning .invalidJson (str "invalid JSON in " ++ f.rel_path ++ str ": " ++ e)
        ∈ out.warnings) ∧
    (∀ (cfg : ScanConfig) (f : FileRec) (files : List FileRec),
      hasJsonExt f = false → scanCards cfg (f :: files) = scanCards cfg files) := by
  refine ⟨?_, ?_, ?_, ?_⟩
  · intro cfg files out f e hok hmem hext hc
    exact scanCards_warnings_mem hok hmem (processFile_unreadable hext hc) _
      (List.mem_singleton.mpr rfl)
  · intro cfg files f e hstrict hmem hext hc
    rcases scanFilesLoop_err hmem (processFile_malformed_strict hstrict hext hc) with
      ⟨msg, hmsg⟩
    exact ⟨msg, scanCards_err_of_loop_err hmsg⟩
  · intro cfg files out f e hstrict hok hmem hext hc
    exact scanCards_warnings_mem hok hmem (processFile_malformed_lenient hstrict hext hc) _
      (List.mem_singleton.mpr rfl)
  · intro cfg f files hext
    unfold scanCards
    rw [scanFilesLoop_skip files hext]

/-- Witness for C6 (amended) at concrete inputs: a lenient scan over one
unreadable file, one malformed file, one valid card and one `.txt` file. -/
theorem c6_scan_failures_amended_witness :
    warning .invalidJson (str "failed to read u.json: io")
      ∈ ((scanCards ⟨none, some (str "demo"), false⟩
          [⟨str "u.json", some (str "json"), .unreadable (str "io")⟩,
           ⟨str "m.json", some (str "json"), .malformed (str "bad")⟩,
           ⟨str "a.json", some (str "json"),
             .parsed (.obj [(str "type", .jstr (str "AdaptiveCard")),
                            (str "actions", .arr [])])⟩]).toOption.getD
        ⟨[], []⟩).warnings ∧
    (∃ msg, scanCards ⟨none, some (str "demo"), true⟩
        [⟨str "m.json", some (str "json"), .malformed (str "bad")⟩] = .error msg) ∧
    warning .invalidJson (str "invalid JSON in m.json: bad")
      ∈ ((scanCards ⟨none, some (str "demo"), false⟩
          [⟨str "u.json", some (str "json"), .unreadable (str "io")⟩,
           ⟨str "m.json", some (str "json"), .malformed (str "bad")⟩,
           ⟨str "a.json", some (str "json"),
             .parsed (.obj [(str "type", .jstr (str "AdaptiveCard")),
                            (str "actions", .arr [])])⟩]).toOption.getD
        ⟨[], []⟩).warnings ∧
    scanCards ⟨none, some (str "demo"), false⟩
        [⟨str "n.txt", some (str "txt"), .unreadable (str "io")⟩,
         ⟨str "a.json", some (str "json"),
           .parsed (.obj [(str "type", .jstr (str "AdaptiveCard")),
                          (str "actions", .arr [])])⟩] =
      scanCards ⟨none, some (str "demo"), false⟩
        [⟨str "a.json", some (str "json"),
           .parsed (.obj [(str "type", .jstr (str "AdaptiveCard")),
                          (str "actions", .arr [])])⟩] := by
  refine ⟨?_, ?_, ?_, ?_⟩
  · have h := c6_scan_failures_amended.1 ⟨none, some (str "demo"), false⟩
      [⟨str "u.json", some (str "json"), .unreadable (str "io")⟩,
       ⟨str "m.json", some (str "json"), .malformed (str "bad")⟩,
       ⟨str "a.json", some (str "json"),
         .parsed (.obj [(str "type", .jstr (str "AdaptiveCard")),
                        (str "actions", .arr [])])⟩]
      (⟨[⟨str "demo", [⟨str "a.json", str "a", str "demo", []⟩]⟩],
        [warning .invalidJson (str "failed to read u.json: io"),
         warning .invalidJson (str "invalid JSON in m.json: bad")]⟩)
      ⟨str "u.json", some (str "json"), .unreadable (str "io")⟩ (str "io")
      (by rfl) (by simp) (by rfl) (by rfl)
    exact (by rfl : _ = ScanOut.mk _ _) ▸ h
  · exact c6_scan_failures_amended.2.1 ⟨none, some (str "demo"), true⟩
      [⟨str "m.json", some (str "json"), .malformed (str "bad")⟩]
      ⟨str "m.json", some (str "json"), .malformed (str "bad")⟩ (str "bad")
      rfl (by simp) (by rfl) (by rfl)
  · have h := c6_scan_failures_amended.2.2.1 ⟨none, some (str "demo"), false⟩
      [⟨str "u.json", some (str "json"), .unreadable (str "io")⟩,
       ⟨str "m.json", some (str "json"), .malformed (str "bad")⟩,
       ⟨str "a.json", some (str "json"),
         .parsed (.obj [(str "type", .jstr (str "AdaptiveCard")),
                        (str "actions", .arr [])])⟩]
      (⟨[⟨str "demo", [⟨str "a.json", str "a", str "demo", []⟩]⟩],
        [warning .invalidJson (str "failed to read u.json: io"),
         warning .invalidJson (str "invalid JSON in m.json: bad")]⟩)
      ⟨str "m.json", some (str "json"), .malformed (str "bad")⟩ (str "bad")
      rfl (by rfl) (by simp) (by rfl) (by rfl)
    exact (by rfl : _ = ScanOut.mk _ _) ▸ h
  · exact c6_scan_failures_amended.2.2.2 ⟨none, some (str "demo"), false⟩
      ⟨str "n.txt", some (str "txt"), .unreadable (str "io")⟩
      [⟨str "a.json", some (str "json"),
         .parsed (.obj [(str "type", .jstr (str "AdaptiveCard")),
                        (str "actions", .arr [])])⟩]
      (by rfl)

/-! ### C7 — identity-conflict resolution -/

theorem dedupAdj_const : ∀ (l : List Str) (v : Str), (∀ x ∈ l, x = v) → dedupAdj (v :: l) = [v]
  | [], v, _ => rfl
  | y :: rest, v, h => by
    have hy : y = v := h y (by simp)
    subst hy
    have : dedupAdj (y :: rest) = [y] := dedupAdj_const rest y (fun x hx => h x (by simp [hx]))
    simpa [dedupAdj] using this

theorem sortStrs_all_eq {l : List Str} {v : Str} (h : ∀ x ∈ l, x = v) :
    ∀ x ∈ sortStrs l, x = v := by
  intro x hx
  exact h x ((List.perm_insertionSort strLe l).mem_iff.mp hx)

theorem sortStrs_length (l : List Str) : (sortStrs l).length = l.length :=
  (List.perm_insertionSort strLe l).length_eq

theorem resolveConsistentValue_agree (v0 : Str) (vs : List Str) (label relPath : Str)
    (strict : Bool) (h : ∀ x ∈ vs, x = v0) :
    resolveConsistentValue (v0 :: vs) label relPath strict = .ok (some v0, []) := by
  have hall : ∀ x ∈ sortStrs (v0 :: vs), x = v0 :=
    sortStrs_all_eq (by
      intro x hx
      rcases List.mem_cons.mp hx with h0 | h0
      · exact h0
      · exact h x h0)
  have hdedup : dedupAdj (sortStrs (v0 :: vs)) = [v0] := by
    cases hs : sortStrs (v0 :: vs) with
    | nil =>
      have := sortStrs_length (v0 :: vs)
      rw [hs] at this
      simp at this
    | cons y t =>
      have hy : y = v0 := hall y (by simp [hs])
      subst hy
      exact dedupAdj_const t y (fun x hx => hall x (by simp [hs, hx]))
  unfold resolveConsistentValue
  rw [hdedup]
  simp

theorem resolveConsistentValue_conflict (v0 : Str) (vs : List Str) (label relPath : Str)
    (h : 1 < (dedupAdj (sortStrs (v0 :: vs))).length) :
    resolveConsistentValue (v0 :: vs) label relPath true =
      .error (str "inconsistent " ++ label ++ str " values in " ++ relPath ++ str ": "
        ++ List.intercalate (str ", ") (dedupAdj (sortStrs (v0 :: vs)))) ∧
    resolveConsistentValue (v0 :: vs) label relPath false =
      .ok (some v0,
        [warning .inconsistent
          (str "inconsistent " ++ label ++ str " values in " ++ relPath ++ str ": "
            ++ List.intercalate (str ", ") (dedupAdj (sortStrs (v0 :: vs))))]) := by
  constructor <;>
    · unfold resolveConsistentValue
      simp [h]

/-- C7: the claim states a `data.cardId` conflict resolves to the first
value in *sorted* order; on the code `resolve_consistent_value` returns
`values[0]`, the first value in encounter order — for the conflicting
values [b, a] it resolves to `b` although the sorted-first value is `a`. -/
theorem c7_conflict_sorted_counterexample :
    resolveConsistentValue [str "b", str "a"] (str "cardId") (str "x.json") false =
      .ok (some (str "b"),
        [warning .inconsistent (str "inconsistent cardId values in x.json: a, b")]) ∧
    sortStrs [str "b", str "a"] = [str "a", str "b"] ∧
    (str "b" : Str) ≠ str "a" := by
  refine ⟨rfl, rfl, by decide⟩

/-- C7 (amended): when a card's actions carry two or more distinct values
for `data.cardId` (likewise `data.flow`), the resolved identity is
`values[0]` — the first value in *encounter* order — with an
identity-conflict warning in lenient mode (naming the sorted distinct
values) and an aborting error in strict mode; when all values agree, that
single value is used with no warning. -/
theorem c7_identity_conflict_amended :
    (∀ (label relPath : Str) (strict : Bool),
      resolveConsistentValue [] label relPath strict = .ok (none, [])) ∧
    (∀ (v0 : Str) (vs : List Str) (label relPath : Str) (strict : Bool),
      (∀ x ∈ vs, x = v0) →
      resolveConsistentValue (v0 :: vs) label relPath strict = .ok (some v0, [])) ∧
    (∀ (v0 : Str) (vs : List Str) (label relPath : Str),
      1 < (dedupAdj (sortStrs (v0 :: vs))).length →
      resolveConsistentValue (v0 :: vs) label relPath true =
        .error (str "inconsistent " ++ label ++ str " values in " ++ relPath ++ str ": "
          ++ List.intercalate (str ", ") (dedupAdj (sortStrs (v0 :: vs)))) ∧
      resolveConsistentValue (v0 :: vs) label relPath false =
        .ok (some v0,
          [warning .inconsistent
            (str "inconsistent " ++ label ++ str " values in " ++ relPath ++ str ": "
              ++ List.intercalate (str ", ") (dedupAdj (sortStrs (v0 :: vs))))])) ∧
    scanCards ⟨none, some (str "demo"), false⟩
        [⟨str "x.json", some (str "json"),
          .parsed (.obj
            [(str "type", .jstr (str "AdaptiveCard")),
             (str "actions", .arr
               [.obj [(str "type", .jstr (str "Action.Submit")),
                      (str "data", .obj [(str "cardId", .jstr (str "b"))])],
                .obj [(str "type", .jstr (str "Action.Submit")),
                      (str "data", .obj [(str "cardId", .jstr (str "a"))])]])])⟩] =
      .ok ⟨[⟨str "demo",
              [⟨str "x.json", str "b", str "demo",
                [⟨str "Action.Submit", none, some (.cardId (str "b"))⟩,
                 ⟨str "Action.Submit", none, some (.cardId (str "a"))⟩]⟩]⟩],
           [warning .inconsistent (str "inconsistent cardId values in x.json: a, b")]⟩ := by
  refine ⟨fun _ _ _ => rfl, resolveConsistentValue_agree, resolveConsistentValue_conflict, rfl⟩

/-- Witness for C7 (amended) at concrete inputs. -/
theorem c7_identity_conflict_amended_witness :
    resolveConsistentValue [str "x", str "x"] (str "cardId") (str "p.json") true =
      .ok (some (str "x"), []) ∧
    resolveConsistentValue [str "b", str "a"] (str "flow") (str "p.json") true =
      .error (str "inconsistent flow values in p.json: a, b") := by
  constructor
  · exact c7_identity_conflict_amended.2.1 (str "x") [str "x"] (str "cardId") (str "p.json")
      true (by decide)
  · exact (c7_identity_conflict_amended.2.2.1 (str "b") [str "a"] (str "flow") (str "p.json")
      (by decide)).1

/-! ### Sorted-map well-formedness

Every map in the pipeline is built from `[]` by `alInsert` / `alEntryOr` /
`alModify`, so its keys are strictly sorted; this is what makes first-match
lookup coincide with `BTreeMap` lookup. -/

def keyLt (a b : Str) : Prop := strLtB a b = true

instance : IsTrans Str keyLt := ⟨fun _ _ _ => strLtB_trans⟩

/-- Strictly sorted (hence duplicate-free) key sequence. -/
def alSorted {β : Type} (m : List (Str × β)) : Prop :=
  List.Pairwise keyLt (m.map Prod.fst)

theorem alSorted_nil {β : Type} : alSorted ([] : List (Str × β)) := List.Pairwise.nil

theorem mem_keys_alInsert {β : Type} {k k' : Str} {v : β} {m : List (Str × β)}
    (h : k' ∈ (alInsert k v m).map Prod.fst) : k' = k ∨ k' ∈ m.map Prod.fst := by
  rcases List.mem_map.mp h with ⟨e, he, hk⟩
  rcases mem_alInsert k v m e he with h0 | h0
  · left; rw [← hk, h0]
  · right; exact hk ▸ List.mem_map_of_mem Prod.fst h0

theorem alSorted_alInsert {β : Type} (k : Str) (v : β) :
    ∀ {m : List (Str × β)}, alSorted m → alSorted (alInsert k v m)
  | [], _ => by simp [alSorted, alInsert]
  | (k₀, v₀) :: rest, h => by
    have hh := (List.pairwise_cons.mp h)
    by_cases hlt : strLtB k k₀ = true
    · unfold alSorted
      simp only [alInsert, hlt, if_true, List.map_cons]
      refine List.pairwise_cons.mpr ⟨?_, h⟩
      intro a ha
      simp only [List.map_cons, List.mem_cons] at ha
      rcases ha with ha | ha
      · exact ha ▸ hlt
      · exact strLtB_trans hlt (hh.1 a ha)
    · by_cases heq : k = k₀
      · subst heq
        unfold alSorted
        simp only [alInsert, hlt, Bool.false_eq_true, if_false, if_true, List.map_cons]
        exact List.pairwise_cons.mpr ⟨hh.1, hh.2⟩
      · have hgt : strLtB k₀ k = true := by
          cases hx : strLtB k₀ k with
          | true => rfl
          | false =>
            exact absurd (strLtB_connex (by simpa using hlt) hx) heq
        simp only [alInsert, hlt, heq, Bool.false_eq_true, if_false]
        refine List.pairwise_cons.mpr ⟨?_, alSorted_alInsert k v hh.2⟩
        intro a ha
        rcases mem_keys_alInsert ha with ha | ha
        · exact ha ▸ hgt
        · exact hh.1 a ha

theorem map_fst_alModify {β : Type} (k : Str) (f : β → β) :
    ∀ (m : List (Str × β)), (alModify k f m).map Prod.fst = m.map Prod.fst
  | [] => rfl
  | (k₀, v₀) :: rest => by
    by_cases heq : k = k₀ <;>
      simp [alModify, heq, map_fst_alModify k f rest]

theorem alSorted_alModify {β : Type} {k : Str} {f : β → β} {m : List (Str × β)}
    (h : alSorted m) : alSorted (alModify k f m) := by
  unfold alSorted
  rw [map_fst_alModify]
  exact h

theorem alSorted_alEntryOr {β : Type} {k : Str} {v : β} {m : List (Str × β)}
    (h : alSorted m) : alSorted (alEntryOr k v m) := by
  unfold alEntryOr
  cases alFind m k with
  | some _ => exact h
  | none => exact alSorted_alInsert k v h

theorem alFind_of_mem {β : Type} :
    ∀ {m : List (Str × β)} {k : Str} {v : β},
      alSorted m → (k, v) ∈ m → alFind m k = some v
  | [], k, v, _, hmem => by simp at hmem
  | (k₀, v₀) :: rest, k, v, hs, hmem => by
    have hh := List.pairwise_cons.mp hs
    rcases List.mem_cons.mp hmem with he | he
    · rw [Prod.mk.injEq] at he
      simp [alFind, he.1, he.2]
    · have hk : k ∈ rest.map Prod.fst := List.mem_map_of_mem Prod.fst he
      have hne : ¬ k = k₀ := by
        intro hbad
        have := hh.1 k hk
        rw [hbad] at this
        simp [keyLt, strLtB_irrefl] at this
      simp only [alFind, hne, if_false]
      exact alFind_of_mem hh.2 he

/-! ### C10 — graph-construction invariants -/

/-- Invariant carried through `build_flow_graph`: the map is well-formed,
stub nodes carry no asset path and no routes, every non-stub node is a
group card's node, and every group card's id is bound to a non-stub node. -/
def NodesInv (cards : List CardDoc) (nodes : List (Str × FlowNode)) : Prop :=
  alSorted nodes ∧
  (∀ e ∈ nodes, e.2.stub = true → e.2.card_path = none ∧ e.2.routes = []) ∧
  (∀ e ∈ nodes, e.2.stub = false → ∃ card ∈ cards,
      card.card_id = e.2.name ∧ e.2.card_path = some (assetPath card.rel_path)) ∧
  (∀ c ∈ cards, ∃ v, alFind nodes c.card_id = some v ∧ v.stub = false)

theorem NodesInv_stubInsert {cards : List CardDoc} {nodes : List (Str × FlowNode)}
    {targetName : Str} (hinv : NodesInv cards nodes)
    (hnone : alFind nodes targetName = none) :
    NodesInv cards (alInsert targetName ⟨targetName, none, [], true⟩ nodes) := by
  obtain ⟨hsort, hstub, hnonstub, hkeys⟩ := hinv
  refine ⟨alSorted_alInsert _ _ hsort, ?_, ?_, ?_⟩
  · intro e he hs
    rcases mem_alInsert _ _ _ _ he with h0 | h0
    · rw [h0]
      exact ⟨rfl, rfl⟩
    · exact hstub e h0 hs
  · intro e he hns
    rcases mem_alInsert _ _ _ _ he with h0 | h0
    · rw [h0] at hns
      simp at hns
    · exact hnonstub e h0 hns
  · intro c hc
    rcases hkeys c hc with ⟨v, hv, hvs⟩
    have hne : ¬ c.card_id = targetName := by
      intro hbad
      rw [hbad, hnone] at hv
      exact Option.noConfusion hv
    refine ⟨v, ?_, hvs⟩
    rw [alFind_alInsert, if_neg hne]
    exact hv

theorem NodesInv_modify {cards : List CardDoc} {nodes : List (Str × FlowNode)}
    {c : CardDoc} (hc : c ∈ cards) (routes : List RouteEdge)
    (hinv : NodesInv cards nodes) :
    NodesInv cards
      (alModify c.card_id (fun n => { n with routes := n.routes ++ routes }) nodes) := by
  obtain ⟨hsort, hstub, hnonstub, hkeys⟩ := hinv
  have hkc := hkeys c hc
  refine ⟨alSorted_alModify hsort, ?_, ?_, ?_⟩
  · intro e he hs
    rcases mem_alModify _ _ _ _ he with h0 | ⟨v, hv, he'⟩
    · exact hstub e h0 hs
    · rcases hkc with ⟨v', hv', hvs'⟩
      have : v = v' := by
        have := alFind_of_mem hsort hv
        rw [this] at hv'
        exact Option.some.injEq _ _ ▸ hv'.symm ▸ rfl
      rw [he'] at hs
      simp only [] at hs
      rw [this] at hs
      rw [hs] at hvs'
      simp at hvs'
  · intro e he hns
    rcases mem_alModify _ _ _ _ he with h0 | ⟨v, hv, he'⟩
    · exact hnonstub e h0 hns
    · have hvns : v.stub = false := by
        rw [he'] at hns
        exact hns
      rcases hnonstub (c.card_id, v) hv hvns with ⟨card, hcard, hname, hpath⟩
      exact ⟨card, hcard, by rw [he']; exact ⟨hname, hpath⟩⟩
  · intro c' hc'
    rcases hkeys c' hc' with ⟨v, hv, hvs⟩
    by_cases heq : c'.card_id = c.card_id
    · refine ⟨{ v with routes := v.routes ++ routes }, ?_, hvs⟩
      rw [alFind_alModify, if_pos heq, ← heq, hv]
      rfl
    · refine ⟨v, ?_, hvs⟩
      rw [alFind_alModify, if_neg heq]
      exact hv

theorem buildRoutes_inv {strict : Bool} {flowName cardId : Str} {cards : List CardDoc} :
    ∀ {acts : List (Nat × CardAction)} {nodes : List (Str × FlowNode)} {ws : List Warning}
      {used : List Str} {routes : List RouteEdge} {nodes' : List (Str × FlowNode)}
      {ws' : List Warning} {routes' : List RouteEdge},
      NodesInv cards nodes →
      buildRoutes strict flowName cardId acts nodes ws used routes =
        .ok (nodes', ws', routes') →
      NodesInv cards nodes' := by
  intro acts
  induction acts with
  | nil =>
    intro nodes ws used routes nodes' ws' routes' hinv h
    simp [buildRoutes] at h
    rw [← h.1]
    exact hinv
  | cons ia rest ih =>
    obtain ⟨index, action⟩ := ia
    obtain ⟨atype, atitle, atarget⟩ := action
    intro nodes ws used routes nodes' ws' routes' hinv h
    cases atarget with
    | none =>
      simp only [buildRoutes] at h
      exact ih hinv h
    | some target =>
      cases target with
      | step name =>
        simp only [buildRoutes] at h
        cases hfind : alFind nodes name with
        | some v =>
          rw [hfind] at h
          simp only [] at h
          exact ih hinv h
        | none =>
          rw [hfind] at h
          simp only [] at h
          by_cases hstrict : strict = true
          · rw [if_pos hstrict] at h
            simp at h
          · rw [if_neg hstrict] at h
            simp only [] at h
            exact ih (NodesInv_stubInsert hinv hfind) h
      | cardId name =>
        simp only [buildRoutes] at h
        cases hfind : alFind nodes name with
        | some v =>
          rw [hfind] at h
          simp only [] at h
          exact ih hinv h
        | none =>
          rw [hfind] at h
          simp only [] at h
          by_cases hstrict : strict = true
          · rw [if_pos hstrict] at h
            simp at h
          · rw [if_neg hstrict] at h
            simp only [] at h
            exact ih (NodesInv_stubInsert hinv hfind) h

theorem buildCards_inv {strict : Bool} {flowName : Str} {cards : List CardDoc} :
    ∀ {cs : List CardDoc} {nodes : List (Str × FlowNode)} {ws : List Warning}
      {nodes' : List (Str × FlowNode)} {ws' : List Warning},
      (∀ c ∈ cs, c ∈ cards) → NodesInv cards nodes →
      buildCards strict flowName cs nodes ws = .ok (nodes', ws') →
      NodesInv cards nodes' := by
  intro cs
  induction cs with
  | nil =>
    intro nodes ws nodes' ws' _ hinv h
    simp [buildCards] at h
    rw [← h.1]
    exact hinv
  | cons card rest ih =>
    intro nodes ws nodes' ws' hsub hinv h
    simp only [buildCards] at h
    cases hbr : buildRoutes strict flowName card.card_id card.actions.enum nodes ws [] [] with
    | error e => rw [hbr] at h; simp at h
    | ok p =>
      obtain ⟨nodes₁, ws₁, routes₁⟩ := p
      rw [hbr] at h
      simp only [] at h
      have hinv₁ := buildRoutes_inv hinv hbr
      have hinv₂ := NodesInv_modify (hsub card (by simp)) routes₁ hinv₁
      exact ih (fun c hc => hsub c (by simp [hc])) hinv₂ h

theorem phase1_Q (cards : List CardDoc) :
    ∀ (cs : List CardDoc) (init : List (Str × FlowNode)),
      (∀ c ∈ cs, c ∈ cards) →
      alSorted init →
      (∀ e ∈ init, e.2.stub = false ∧ ∃ card ∈ cards,
        card.card_id = e.2.name ∧ e.2.card_path = some (assetPath card.rel_path)) →
      alSorted (cs.foldl (fun m c =>
          alEntryOr c.card_id ⟨c.card_id, some (assetPath c.rel_path), [], false⟩ m) init) ∧
      (∀ e ∈ cs.foldl (fun m c =>
          alEntryOr c.card_id ⟨c.card_id, some (assetPath c.rel_path), [], false⟩ m) init,
        e.2.stub = false ∧ ∃ card ∈ cards,
          card.card_id = e.2.name ∧ e.2.card_path = some (assetPath card.rel_path))
  | [], init, _, hs, hq => ⟨hs, hq⟩
  | c :: rest, init, hsub, hs, hq => by
    simp only [List.foldl_cons]
    refine phase1_Q cards rest _ (fun c' hc' => hsub c' (by simp [hc'])) ?_ ?_
    · exact alSorted_alEntryOr hs
    · intro e he
      unfold alEntryOr at he
      cases hf : alFind init c.card_id with
      | some v =>
        rw [hf] at he
        exact hq e he
      | none =>
        rw [hf] at he
        rcases mem_alInsert _ _ _ _ he with h0 | h0
        · rw [h0]
          exact ⟨rfl, c, hsub c (by simp), rfl, rfl⟩
        · exact hq e h0

theorem phase1_presence_mono {k : Str} {v : FlowNode} :
    ∀ (cs : List CardDoc) (init : List (Str × FlowNode)),
      alFind init k = some v →
      alFind (cs.foldl (fun m c =>
        alEntryOr c.card_id ⟨c.card_id, some (assetPath c.rel_path), [], false⟩ m) init) k
        = some v
  | [], _, h => h
  | c :: rest, init, h => by
    simp only [List.foldl_cons]
    refine phase1_presence_mono rest _ ?_
    unfold alEntryOr
    cases hf : alFind init c.card_id with
    | some _ => exact h
    | none =>
      have hne : ¬ k = c.card_id := by
        intro hbad
        rw [hbad, hf] at h
        exact Option.noConfusion h
      rw [alFind_alInsert, if_neg hne]
      exact h

theorem phase1_presence :
    ∀ (cs : List CardDoc) (init : List (Str × FlowNode)) (c : CardDoc),
      c ∈ cs →
      ∃ v, alFind (cs.foldl (fun m c =>
        alEntryOr c.card_id ⟨c.card_id, some (assetPath c.rel_path), [], false⟩ m) init)
          c.card_id = some v
  | [], _, c, h => by simp at h
  | c₀ :: rest, init, c, h => by
    rcases List.mem_cons.mp h with h0 | h0
    · subst h0
      simp only [List.foldl_cons]
      have : ∃ v, alFind (alEntryOr c.card_id
          ⟨c.card_id, some (assetPath c.rel_path), [], false⟩ init) c.card_id = some v := by
        unfold alEntryOr
        cases hf : alFind init c.card_id with
        | some v => exact ⟨v, hf⟩
        | none =>
          refine ⟨⟨c.card_id, some (assetPath c.rel_path), [], false⟩, ?_⟩
          rw [alFind_alInsert, if_pos rfl]
      rcases this with ⟨v, hv⟩
      exact ⟨v, phase1_presence_mono rest _ hv⟩
    · exact phase1_presence rest _ c h0

/-- C10: in every `FlowGraph` returned by `build_flow_graph`, a stub node
has no card asset path and no outgoing routes, and a non-stub node is the
node of some card of the input group, named by its `card_id` and carrying
its `assets/cards/<rel_path>` asset path. -/
theorem c10_graph_invariants (group : FlowGroup) (strict : Bool) (g : FlowGraph)
    (h : buildFlowGraph group strict = .ok g) :
    ∀ k node, alFind g.nodes k = some node →
      (node.stub = true → node.card_path = none ∧ node.routes = []) ∧
      (node.stub = false → ∃ card ∈ group.cards,
        card.card_id = node.name ∧ node.card_path = some (assetPath card.rel_path)) := by
  have hQ := phase1_Q group.cards group.cards [] (fun _ hc => hc)
    alSorted_nil (by intro e he; simp at he)
  have hinv0 : NodesInv group.cards (group.cards.foldl (fun m c =>
      alEntryOr c.card_id ⟨c.card_id, some (assetPath c.rel_path), [], false⟩ m) []) := by
    refine ⟨hQ.1, ?_, ?_, ?_⟩
    · intro e he hs
      have := (hQ.2 e he).1
      rw [hs] at this
      exact Bool.noConfusion this
    · intro e he _
      exact (hQ.2 e he).2
    · intro c hc
      rcases phase1_presence group.cards [] c hc with ⟨v, hv⟩
      refine ⟨v, hv, ?_⟩
      exact (hQ.2 (c.card_id, v) (alFind_mem hv)).1
  unfold buildFlowGraph at h
  cases hbc : buildCards strict group.flow_name group.cards (group.cards.foldl (fun m c =>
      alEntryOr c.card_id ⟨c.card_id, some (assetPath c.rel_path), [], false⟩ m) []) [] with
  | error e => rw [hbc] at h; simp at h
  | ok p =>
    obtain ⟨nodes', ws'⟩ := p
    rw [hbc] at h
    simp only [Except.ok.injEq] at h
    have hinv := buildCards_inv (fun _ hc => hc) hinv0 hbc
    intro k node hfind
    rw [← h] at hfind
    simp only [] at hfind
    obtain ⟨_, hstub, hnonstub, _⟩ := hinv
    have hmem := alFind_mem hfind
    exact ⟨hstub (k, node) hmem, hnonstub (k, node) hmem⟩

/-- Witness for C10 at the three-card A→B→C group. -/
theorem c10_graph_invariants_witness :
    (abcGraph.nodes.map Prod.fst = [str "A", str "B", str "C"]) ∧
    ((c10_graph_invariants abcGroup true abcGraph rfl (str "A")
        ⟨str "A", some (assetPath (str "a.json")),
          [⟨str "B", str "B"⟩], false⟩ rfl).2 rfl).choose ∈ abcGroup.cards := by
  constructor
  · rfl
  · exact ((c10_graph_invariants abcGroup true abcGraph rfl (str "A")
      ⟨str "A", some (assetPath (str "a.json")),
        [⟨str "B", str "B"⟩], false⟩ rfl).2 rfl).choose_spec.1

/-! ### C8 — route-key selection and uniqueness -/

theorem natDigitsAux_acc :
    ∀ (fuel n : Nat) (acc : Str), natDigitsAux fuel n acc = natDigitsAux fuel n [] ++ acc
  | 0, _, _ => rfl
  | fuel + 1, n, acc => by
    by_cases h : n < 10
    · simp [natDigitsAux, h]
    · simp only [natDigitsAux, h, if_false]
      rw [natDigitsAux_acc fuel (n / 10) (digitChar (n % 10) :: acc),
        natDigitsAux_acc fuel (n / 10) [digitChar (n % 10)]]
      simp

theorem natDigitsAux_ne_nil {fuel n : Nat} (h : 0 < fuel) : natDigitsAux fuel n [] ≠ [] := by
  cases fuel with
  | zero => omega
  | succ f =>
    by_cases h10 : n < 10
    · simp [natDigitsAux, h10]
    · simp only [natDigitsAux, h10, if_false]
      rw [natDigitsAux_acc]
      simp

theorem natDigitsAux_fuel_eq :
    ∀ (fuel fuel' n : Nat), n < fuel → n < fuel' →
      natDigitsAux fuel n [] = natDigitsAux fuel' n []
  | 0, _, _, h, _ => by omega
  | _ + 1, 0, _, _, h' => by omega
  | fuel + 1, fuel' + 1, n, h, h' => by
    by_cases h10 : n < 10
    · simp [natDigitsAux, h10]
    · simp only [natDigitsAux, h10, if_false]
      rw [natDigitsAux_acc fuel, natDigitsAux_acc fuel']
      have hd : n / 10 < n := Nat.div_lt_self (by omega) (by omega)
      rw [natDigitsAux_fuel_eq fuel fuel' (n / 10) (by omega) (by omega)]

theorem natToChars_lt10 {n : Nat} (h : n < 10) : natToChars n = [digitChar n] := by
  simp [natToChars, natDigitsAux, h]

theorem natToChars_ge10 {n : Nat} (h : 10 ≤ n) :
    natToChars n = natToChars (n / 10) ++ [digitChar (n % 10)] := by
  have h10 : ¬ n < 10 := by omega
  have hd : n / 10 < n := Nat.div_lt_self (by omega) (by omega)
  unfold natToChars
  conv_lhs => rw [show n + 1 = (n : Nat) + 1 from rfl]
  rw [show natDigitsAux (n + 1) n [] =
      natDigitsAux n (n / 10) [digitChar (n % 10)] by simp [natDigitsAux, h10]]
  rw [natDigitsAux_acc]
  rw [natDigitsAux_fuel_eq n (n / 10 + 1) (n / 10) (by omega) (by omega)]

theorem dval_digitChar : ∀ a : Nat, a < 10 → (digitChar a).toNat - 48 = a := by
  intro a h
  interval_cases a <;> rfl

theorem digitChar_inj {a b : Nat} (ha : a < 10) (hb : b < 10)
    (h : digitChar a = digitChar b) : a = b := by
  have := congrArg (fun c : Char => c.toNat - 48) h
  simp only [] at this
  rw [dval_digitChar a ha, dval_digitChar b hb] at this
  exact this

theorem natToChars_inj : ∀ (m n : Nat), natToChars m = natToChars n → m = n := by
  intro m
  induction m using Nat.strong_induction_on with
  | _ m ih =>
    intro n h
    by_cases hm : m < 10
    · by_cases hn : n < 10
      · rw [natToChars_lt10 hm, natToChars_lt10 hn] at h
        exact digitChar_inj hm hn (by simpa using h)
      · rw [natToChars_lt10 hm, natToChars_ge10 (by omega)] at h
        have hne : natToChars (n / 10) ≠ [] := natDigitsAux_ne_nil (by omega)
        have hlen := congrArg List.length h
        simp only [List.length_singleton, List.length_append] at hlen
        exact absurd (List.length_eq_zero.mp (by omega)) hne
    · by_cases hn : n < 10
      · rw [natToChars_ge10 (by omega), natToChars_lt10 hn] at h
        have hne : natToChars (m / 10) ≠ [] := natDigitsAux_ne_nil (by omega)
        have hlen := congrArg List.length h
        simp only [List.length_singleton, List.length_append] at hlen
        exact absurd (List.length_eq_zero.mp (by omega)) hne
      · rw [natToChars_ge10 (by omega), natToChars_ge10 (by omega : 10 ≤ n)] at h
        have happ := List.append_inj' h (by simp)
        have hmod : m % 10 = n % 10 :=
          digitChar_inj (Nat.mod_lt _ (by omega)) (Nat.mod_lt _ (by omega))
            (by simpa using happ.2)
        have hdiv : m / 10 = n / 10 :=
          ih (m / 10) (Nat.div_lt_self (by omega) (by omega)) (n / 10) happ.1
        omega
theorem suffixedKey_inj {key : Str} {a b : Nat} (h : suffixedKey key a = suffixedKey key b) :
    a = b := by
  unfold suffixedKey at h
  have h1 := List.append_cancel_left h
  exact natToChars_inj a b (List.cons.injEq _ _ _ _ ▸ h1 |>.2)

theorem firstFreeSuffix_free :
    ∀ (fuel n : Nat) (used : List Str) (key : Str),
      (∃ m, n ≤ m ∧ m < n + fuel ∧ suffixedKey key m ∉ used) →
      firstFreeSuffix used key fuel n ∉ used
  | 0, n, used, key, h => by
    rcases h with ⟨m, h1, h2, _⟩
    omega
  | fuel + 1, n, used, key, h => by
    by_cases hmem : suffixedKey key n ∈ used
    · simp only [firstFreeSuffix]
      rw [if_pos hmem]
      refine firstFreeSuffix_free fuel (n + 1) used key ?_
      rcases h with ⟨m, h1, h2, h3⟩
      have hne : m ≠ n := by
        intro hbad
        rw [hbad] at h3
        exact h3 hmem
      exact ⟨m, by omega, by omega, h3⟩
    · simp only [firstFreeSuffix]
      rw [if_neg hmem]
      exact hmem

theorem exists_free_suffix (used : List Str) (key : Str) (n : Nat) :
    ∃ m, n ≤ m ∧ m < n + (used.length + 1) ∧ suffixedKey key m ∉ used := by
  by_contra hall
  push_neg at hall
  have hsub : ∀ x ∈ (List.range (used.length + 1)).map (fun i => suffixedKey key (n + i)),
      x ∈ used := by
    intro x hx
    rcases List.mem_map.mp hx with ⟨i, hi, hxm⟩
    have hi' := List.mem_range.mp hi
    exact hxm ▸ hall (n + i) (by omega) (by omega)
  have hnodup : ((List.range (used.length + 1)).map (fun i => suffixedKey key (n + i))).Nodup := by
    refine List.Nodup.map ?_ (List.nodup_range _)
    intro a b hab
    have := suffixedKey_inj hab
    omega
  have hcard : ((List.range (used.length + 1)).map
      (fun i => suffixedKey key (n + i))).toFinset.card = used.length + 1 := by
    rw [List.toFinset_card_of_nodup hnodup]
    simp
  have hsubset : ((List.range (used.length + 1)).map
      (fun i => suffixedKey key (n + i))).toFinset ⊆ used.toFinset := by
    intro x hx
    exact List.mem_toFinset.mpr (hsub x (List.mem_toFinset.mp hx))
  have := Finset.card_le_card hsubset
  have hle := List.toFinset_card_le used
  omega

/-- The route list built by `buildRoutes` has pairwise-distinct keys: each
pushed key is checked (and if necessary re-suffixed) against `used_keys`,
which contains every previously pushed key. -/
theorem buildRoutes_keys_nodup {strict : Bool} {flowName cardId : Str} :
    ∀ {acts : List (Nat × CardAction)} {nodes : List (Str × FlowNode)} {ws : List Warning}
      {used : List Str} {routes : List RouteEdge} {nodes' : List (Str × FlowNode)}
      {ws' : List Warning} {routes' : List RouteEdge},
      (routes.map RouteEdge.key).Nodup →
      (∀ r ∈ routes, r.key ∈ used) →
      buildRoutes strict flowName cardId acts nodes ws used routes =
        .ok (nodes', ws', routes') →
      (routes'.map RouteEdge.key).Nodup := by
  intro acts
  induction acts with
  | nil =>
    intro nodes ws used routes nodes' ws' routes' hnd _ h
    simp [buildRoutes] at h
    rw [← h.2.2]
    exact hnd
  | cons ia rest ih =>
    obtain ⟨index, action⟩ := ia
    obtain ⟨atype, atitle, atarget⟩ := action
    intro nodes ws used routes nodes' ws' routes' hnd hused h
    cases atarget with
    | none =>
      simp only [buildRoutes] at h
      exact ih hnd hused h
    | some target =>
      have step : ∀ (name key : Str) (nodes₂ : List (Str × FlowNode)) (ws₂ : List Warning),
          key ∉ used →
          buildRoutes strict flowName cardId rest nodes₂ ws₂ (setInsert key used)
            (routes ++ [⟨key, name⟩]) = .ok (nodes', ws', routes') →
          (routes'.map RouteEdge.key).Nodup := by
        intro name key nodes₂ ws₂ hkeyfree hrec
        refine ih ?_ ?_ hrec
        · rw [List.map_append]
          simp only [List.map_cons, List.map_nil]
          rw [List.nodup_append]
          refine ⟨hnd, List.nodup_singleton _, ?_⟩
          intro a ha hb
          simp only [List.mem_singleton] at hb
          rcases List.mem_map.mp ha with ⟨r, hr, hrk⟩
          exact hkeyfree (hb ▸ hrk ▸ hused r hr)
        · intro r hr
          rcases List.mem_append.mp hr with h0 | h0
          · unfold setInsert
            by_cases hk : key ∈ used
            · rw [if_pos hk]
              exact hused r h0
            · rw [if_neg hk]
              exact List.mem_cons_of_mem _ (hused r h0)
          · simp only [List.mem_singleton] at h0
            rw [h0]
            unfold setInsert
            by_cases hk : key ∈ used
            · rw [if_pos hk]
              exact hk
            · rw [if_neg hk]
              exact List.mem_cons_self _ _
      have keyfree : ∀ base : Str,
          (if base ∈ used then
            firstFreeSuffix used base (used.length + 1) 2
          else base) ∉ used := by
        intro base
        by_cases hmem : base ∈ used
        · rw [if_pos hmem]
          exact firstFreeSuffix_free (used.length + 1) 2 used base
            (exists_free_suffix used base 2)
        · rw [if_neg hmem]
          exact hmem
      cases target with
      | step name =>
        simp only [buildRoutes] at h
        cases hfind : alFind nodes name with
        | some v =>
          rw [hfind] at h
          simp only [] at h
          by_cases hmem : routeKeyForAction ⟨atype, atitle, some (.step name)⟩
              (.step name) index ∈ used
          · rw [if_pos hmem] at h
            refine step name _ nodes _ ?_ h
            have := keyfree (routeKeyForAction ⟨atype, atitle, some (.step name)⟩
              (.step name) index)
            rw [if_pos hmem] at this
            exact this
          · rw [if_neg hmem] at h
            exact step name _ nodes _ hmem h
        | none =>
          rw [hfind] at h
          simp only [] at h
          by_cases hstrict : strict = true
          · rw [if_pos hstrict] at h
            simp at h
          · rw [if_neg hstrict] at h
            simp only [] at h
            by_cases hmem : routeKeyForAction ⟨atype, atitle, some (.step name)⟩
                (.step name) index ∈ used
            · rw [if_pos hmem] at h
              refine step name _ _ _ ?_ h
              have := keyfree (routeKeyForAction ⟨atype, atitle, some (.step name)⟩
                (.step name) index)
              rw [if_pos hmem] at this
              exact this
            · rw [if_neg hmem] at h
              exact step name _ _ _ hmem h
      | cardId name =>
        simp only [buildRoutes] at h
        cases hfind : alFind nodes name with
        | some v =>
          rw [hfind] at h
          simp only [] at h
          by_cases hmem : routeKeyForAction ⟨atype, atitle, some (.cardId name)⟩
              (.cardId name) index ∈ used
          · rw [if_pos hmem] at h
            refine step name _ nodes _ ?_ h
            have := keyfree (routeKeyForAction ⟨atype, atitle, some (.cardId name)⟩
              (.cardId name) index)
            rw [if_pos hmem] at this
            exact this
          · rw [if_neg hmem] at h
            exact step name _ nodes _ hmem h
        | none =>
          rw [hfind] at h
          simp only [] at h
          by_cases hstrict : strict = true
          · rw [if_pos hstrict] at h
            simp at h
          · rw [if_neg hstrict] at h
            simp only [] at h
            by_cases hmem : routeKeyForAction ⟨atype, atitle, some (.cardId name)⟩
                (.cardId name) index ∈ used
            · rw [if_pos hmem] at h
              refine step name _ _ _ ?_ h
              have := keyfree (routeKeyForAction ⟨atype, atitle, some (.cardId name)⟩
                (.cardId name) index)
              rw [if_pos hmem] at this
              exact this
            · rw [if_neg hmem] at h
              exact step name _ _ _ hmem h

theorem buildRoutes_find_mono {strict : Bool} {flowName cardId : Str} :
    ∀ {acts : List (Nat × CardAction)} {nodes : List (Str × FlowNode)} {ws : List Warning}
      {used : List Str} {routes : List RouteEdge} {nodes' : List (Str × FlowNode)}
      {ws' : List Warning} {routes' : List RouteEdge} {k : Str} {v : FlowNode},
      buildRoutes strict flowName cardId acts nodes ws used routes =
        .ok (nodes', ws', routes') →
      alFind nodes k = some v → alFind nodes' k = some v := by
  intro acts
  induction acts with
  | nil =>
    intro nodes ws used routes nodes' ws' routes' k v h hf
    simp [buildRoutes] at h
    rw [← h.1]
    exact hf
  | cons ia rest ih =>
    obtain ⟨index, action⟩ := ia
    obtain ⟨atype, atitle, atarget⟩ := action
    intro nodes ws used routes nodes' ws' routes' k v h hf
    cases atarget with
    | none =>
      simp only [buildRoutes] at h
      exact ih h hf
    | some target =>
      have hstep : ∀ (name : Str),
          alFind nodes name = none →
          alFind (alInsert name ⟨name, none, [], true⟩ nodes) k = some v := by
        intro name hnone
        have hne : ¬ k = name := by
          intro hbad
          rw [hbad, hnone] at hf
          exact Option.noConfusion hf
        rw [alFind_alInsert, if_neg hne]
        exact hf
      cases target with
      | step name =>
        simp only [buildRoutes] at h
        cases hfind : alFind nodes name with
        | some w =>
          rw [hfind] at h
          simp only [] at h
          exact ih h hf
        | none =>
          rw [hfind] at h
          simp only [] at h
          by_cases hstrict : strict = true
          · rw [if_pos hstrict] at h
            simp at h
          · rw [if_neg hstrict] at h
            simp only [] at h
            exact ih h (hstep name hfind)
      | cardId name =>
        simp only [buildRoutes] at h
        cases hfind : alFind nodes name with
        | some w =>
          rw [hfind] at h
          simp only [] at h
          exact ih h hf
        | none =>
          rw [hfind] at h
          simp only [] at h
          by_cases hstrict : strict = true
          · rw [if_pos hstrict] at h
            simp at h
          · rw [if_neg hstrict] at h
            simp only [] at h
            exact ih h (hstep name hfind)

theorem buildRoutes_routesNodup {strict : Bool} {flowName cardId : Str} :
    ∀ {acts : List (Nat × CardAction)} {nodes : List (Str × FlowNode)} {ws : List Warning}
      {used : List Str} {routes : List RouteEdge} {nodes' : List (Str × FlowNode)}
      {ws' : List Warning} {routes' : List RouteEdge},
      (∀ e ∈ nodes, (e.2.routes.map RouteEdge.key).Nodup) →
      buildRoutes strict flowName cardId acts nodes ws used routes =
        .ok (nodes', ws', routes') →
      ∀ e ∈ nodes', (e.2.routes.map RouteEdge.key).Nodup := by
  intro acts
  induction acts with
  | nil =>
    intro nodes ws used routes nodes' ws' routes' hnd h
    simp [buildRoutes] at h
    rw [← h.1]
    exact hnd
  | cons ia rest ih =>
    obtain ⟨index, action⟩ := ia
    obtain ⟨atype, atitle, atarget⟩ := action
    intro nodes ws used routes nodes' ws' routes' hnd h
    cases atarget with
    | none =>
      simp only [buildRoutes] at h
      exact ih hnd h
    | some target =>
      have hstep : ∀ (name : Str),
          ∀ e ∈ alInsert name (⟨name, none, [], true⟩ : FlowNode) nodes,
            (e.2.routes.map RouteEdge.key).Nodup := by
        intro name e he
        rcases mem_alInsert _ _ _ _ he with h0 | h0
        · rw [h0]
          exact List.nodup_nil
        · exact hnd e h0
      cases target with
      | step name =>
        simp only [buildRoutes] at h
        cases hfind : alFind nodes name with
        | some w =>
          rw [hfind] at h
          simp only [] at h
          exact ih hnd h
        | none =>
          rw [hfind] at h
          simp only [] at h
          by_cases hstrict : strict = true
          · rw [if_pos hstrict] at h
            simp at h
          · rw [if_neg hstrict] at h
            simp only [] at h
            exact ih (hstep name) h
      | cardId name =>
        simp only [buildRoutes] at h
        cases hfind : alFind nodes name with
        | some w =>
          rw [hfind] at h
          simp only [] at h
          exact ih hnd h
        | none =>
          rw [hfind] at h
          simp only [] at h
          by_cases hstrict : strict = true
          · rw [if_pos hstrict] at h
            simp at h
          · rw [if_neg hstrict] at h
            simp only [] at h
            exact ih (hstep name) h

theorem buildCards_routesNodup {strict : Bool} {flowName : Str} (cards : List CardDoc) :
    ∀ {cs : List CardDoc} {nodes : List (Str × FlowNode)} {ws : List Warning}
      {nodes' : List (Str × FlowNode)} {ws' : List Warning},
      (cs.map CardDoc.card_id).Nodup →
      (∀ c ∈ cs, c ∈ cards) →
      NodesInv cards nodes →
      (∀ e ∈ nodes, (e.2.routes.map RouteEdge.key).Nodup) →
      (∀ c ∈ cs, ∀ v, alFind nodes c.card_id = some v → v.routes = []) →
      buildCards strict flowName cs nodes ws = .ok (nodes', ws') →
      ∀ e ∈ nodes', (e.2.routes.map RouteEdge.key).Nodup := by
  intro cs
  induction cs with
  | nil =>
    intro nodes ws nodes' ws' _ _ _ hnd _ h
    simp [buildCards] at h
    rw [← h.1]
    exact hnd
  | cons card rest ih =>
    intro nodes ws nodes' ws' hids hsub hinv hnd hempty h
    simp only [buildCards] at h
    cases hbr : buildRoutes strict flowName card.card_id card.actions.enum nodes ws [] [] with
    | error e => rw [hbr] at h; simp at h
    | ok p =>
      obtain ⟨nodes₁, ws₁, routes₁⟩ := p
      rw [hbr] at h
      simp only [] at h
      have hinv₁ := buildRoutes_inv hinv hbr
      have hnd₁ := buildRoutes_routesNodup hnd hbr
      have hroutes₁nd : (routes₁.map RouteEdge.key).Nodup :=
        buildRoutes_keys_nodup (by simp) (by intro r hr; simp at hr) hbr
      have hempty₁ : ∀ c ∈ (card :: rest), ∀ v,
          alFind nodes₁ c.card_id = some v → v.routes = [] := by
        intro c hc v hv
        rcases hinv.2.2.2 c (hsub c hc) with ⟨v₀, hv₀, _⟩
        have := buildRoutes_find_mono hbr hv₀
        rw [this] at hv
        have : v = v₀ := by
          injection hv.symm
        rw [this]
        exact hempty c hc v₀ hv₀
      have hids' : card.card_id ∉ rest.map CardDoc.card_id ∧
          (rest.map CardDoc.card_id).Nodup := by
        rw [List.map_cons] at hids
        exact List.nodup_cons.mp hids
      have hidne : ∀ c ∈ rest, ¬ c.card_id = card.card_id := by
        intro c hc hbad
        exact hids'.1 (hbad ▸ List.mem_map_of_mem CardDoc.card_id hc)
      refine ih hids'.2
        (fun c hc => hsub c (by simp [hc])) (NodesInv_modify (hsub card (by simp)) routes₁ hinv₁)
        ?_ ?_ h
      · intro e he
        rcases mem_alModify _ _ _ _ he with h0 | ⟨v, hvmem, he'⟩
        · exact hnd₁ e h0
        · have hvfind := alFind_of_mem hinv₁.1 hvmem
          have hvempty : v.routes = [] := hempty₁ card (by simp) v hvfind
          rw [he']
          simp only []
          rw [hvempty]
          simpa using hroutes₁nd
      · intro c hc v hv
        rw [alFind_alModify, if_neg (hidne c hc)] at hv
        exact hempty₁ c (by simp [hc]) v hv

theorem phase1_routes_nil :
    ∀ (cs : List CardDoc) (init : List (Str × FlowNode)),
      (∀ e ∈ init, e.2.routes = []) →
      ∀ e ∈ cs.foldl (fun m c =>
        alEntryOr c.card_id ⟨c.card_id, some (assetPath c.rel_path), [], false⟩ m) init,
        e.2.routes = []
  | [], _, h => h
  | c :: rest, init, h => by
    simp only [List.foldl_cons]
    refine phase1_routes_nil rest _ ?_
    intro e he
    unfold alEntryOr at he
    cases hf : alFind init c.card_id with
    | some v =>
      rw [hf] at he
      exact h e he
    | none =>
      rw [hf] at he
      rcases mem_alInsert _ _ _ _ he with h0 | h0
      · rw [h0]
      · exact h e h0

/-- The spec's edge-label collision scenario: one card with two actions
both routing to `X` (which exists as its own card). -/
def dupRouteGroup : FlowGroup :=
  ⟨str "demo",
    [⟨str "c.json", str "c", str "demo",
       [⟨str "Action.Submit", none, some (.step (str "X"))⟩,
        ⟨str "Action.Submit", none, some (.step (str "X"))⟩]⟩,
     ⟨str "x.json", str "X", str "demo", []⟩]⟩

/-- C8: edge-label selection priority (target name, else title, else
`action-<n>` with `n` the 1-based action position), collision resolution by
first unused `-2`, `-3`, … suffix with a duplicate-route-key warning (the
spec scenario: two actions to `X` get labels `X` and `X-2`), and uniqueness
of edge labels per source node for any group with distinct card ids. -/
theorem c8_edge_labels :
    (∀ (a : CardAction) (name : Str) (i : Nat), name ≠ [] →
      routeKeyForAction a (.step name) i = name ∧
      routeKeyForAction a (.cardId name) i = name) ∧
    (∀ (atype title : Str) (tg : Option RouteTarget) (i : Nat), title ≠ [] →
      routeKeyForAction ⟨atype, some title, tg⟩ (.step []) i = title) ∧
    (∀ (atype : Str) (tg : Option RouteTarget) (i : Nat),
      routeKeyForAction ⟨atype, none, tg⟩ (.step []) i =
        str "action-" ++ natToChars (i + 1) ∧
      routeKeyForAction ⟨atype, some [], tg⟩ (.step []) i =
        str "action-" ++ natToChars (i + 1)) ∧
    buildFlowGraph dupRouteGroup true = .ok
      ⟨str "demo",
        [(str "X", ⟨str "X", some (assetPath (str "x.json")), [], false⟩),
         (str "c", ⟨str "c", some (assetPath (str "c.json")),
            [⟨str "X", str "X"⟩, ⟨str "X-2", str "X"⟩], false⟩)],
        [warning .inconsistent (str "duplicate route key X in card c; renamed to X-2")]⟩ ∧
    (∀ (group : FlowGroup) (strict : Bool) (g : FlowGraph),
      (group.cards.map CardDoc.card_id).Nodup →
      buildFlowGraph group strict = .ok g →
      ∀ k node, alFind g.nodes k = some node →
        (node.routes.map RouteEdge.key).Nodup) := by
  refine ⟨?_, ?_, ?_, rfl, ?_⟩
  · intro a name i hname
    constructor <;> simp [routeKeyForAction, hname]
  · intro atype title tg i htitle
    simp [routeKeyForAction, htitle]
  · intro atype tg i
    constructor <;> simp [routeKeyForAction]
  · intro group strict g hids h
    have hQ := phase1_Q group.cards group.cards [] (fun _ hc => hc)
      alSorted_nil (by intro e he; simp at he)
    have hinv0 : NodesInv group.cards (group.cards.foldl (fun m c =>
        alEntryOr c.card_id ⟨c.card_id, some (assetPath c.rel_path), [], false⟩ m) []) := by
      refine ⟨hQ.1, ?_, ?_, ?_⟩
      · intro e he hs
        have := (hQ.2 e he).1
        rw [hs] at this
        exact Bool.noConfusion this
      · intro e he _
        exact (hQ.2 e he).2
      · intro c hc
        rcases phase1_presence group.cards [] c hc with ⟨v, hv⟩
        refine ⟨v, hv, ?_⟩
        exact (hQ.2 (c.card_id, v) (alFind_mem hv)).1
    have hnil := phase1_routes_nil group.cards [] (by intro e he; simp at he)
    unfold buildFlowGraph at h
    cases hbc : buildCards strict group.flow_name group.cards (group.cards.foldl (fun m c =>
        alEntryOr c.card_id ⟨c.card_id, some (assetPath c.rel_path), [], false⟩ m) []) [] with
    | error e => rw [hbc] at h; simp at h
    | ok p =>
      obtain ⟨nodes', ws'⟩ := p
      rw [hbc] at h
      simp only [Except.ok.injEq] at h
      have hnd := buildCards_routesNodup group.cards hids (fun _ hc => hc) hinv0
        (by
          intro e he
          rw [hnil e he]
          simp)
        (by
          intro c _ v hv
          exact hnil (c.card_id, v) (alFind_mem hv))
        hbc
      intro k node hfind
      rw [← h] at hfind
      exact hnd (k, node) (alFind_mem hfind)

/-- Witness for C8 at concrete inputs: label priority on a named target,
and per-node label uniqueness on the duplicate-route scenario itself. -/
theorem c8_edge_labels_witness :
    routeKeyForAction ⟨str "Action.Submit", none, some (.step (str "X"))⟩
      (.step (str "X")) 0 = str "X" ∧
    (([str "X", str "X-2"] : List Str).Nodup) := by
  constructor
  · exact (c8_edge_labels.1 ⟨str "Action.Submit", none, some (.step (str "X"))⟩
      (str "X") 0 (by decide)).1
  · have h := c8_edge_labels.2.2.2.2 dupRouteGroup true
      ⟨str "demo",
        [(str "X", ⟨str "X", some (assetPath (str "x.json")), [], false⟩),
         (str "c", ⟨str "c", some (assetPath (str "c.json")),
            [⟨str "X", str "X"⟩, ⟨str "X-2", str "X"⟩], false⟩)],
        [warning .inconsistent (str "duplicate route key X in card c; renamed to X-2")]⟩
      (by decide) c8_edge_labels.2.2.2.1 (str "c")
      ⟨str "c", some (assetPath (str "c.json")),
        [⟨str "X", str "X"⟩, ⟨str "X-2", str "X"⟩], false⟩ rfl
    simpa using h

/-! ### C4 — enumeration-order independence of the scan -/

/-- The card a single file contributes (per-file processing is a pure
function of the file alone). -/
def scanDoc (cfg : ScanConfig) (f : FileRec) : Option CardDoc :=
  match processFile cfg f with
  | .ok (_, c) => c
  | .error _ => none

/-- The warnings a single file contributes. -/
def fileWs (cfg : ScanConfig) (f : FileRec) : List Warning :=
  match processFile cfg f with
  | .ok (ws, _) => ws
  | .error _ => []

theorem scanFilesLoop_eq {cfg : ScanConfig} :
    ∀ {files : List FileRec} {ws : List Warning} {cs : List CardDoc},
      scanFilesLoop cfg files = .ok (ws, cs) →
      ws = (files.map (fileWs cfg)).flatten ∧ cs = files.filterMap (scanDoc cfg) := by
  intro files
  induction files with
  | nil =>
    intro ws cs h
    simp [scanFilesLoop] at h
    simp [← h.1, ← h.2]
  | cons f rest ih =>
    intro ws cs h
    simp only [scanFilesLoop] at h
    cases hf : processFile cfg f with
    | error e => rw [hf] at h; simp at h
    | ok p =>
      obtain ⟨wf, c⟩ := p
      rw [hf] at h
      cases hrest : scanFilesLoop cfg rest with
      | error e => rw [hrest] at h; simp at h
      | ok q =>
        obtain ⟨wsRest, csRest⟩ := q
        rw [hrest] at h
        simp only [Except.ok.injEq, Prod.mk.injEq] at h
        rcases ih hrest with ⟨hws, hcs⟩
        constructor
        · rw [← h.1, hws]
          simp [fileWs, hf]
        · rw [← h.2, hcs]
          cases c with
          | none => simp [scanDoc, hf, List.filterMap_cons]
          | some cd => simp [scanDoc, hf, List.filterMap_cons]

/-- The duplicate-identity scenario: two distinct files carrying the same
`greentic.cardId`. -/
def c4IdCard : Json :=
  .obj [(str "type", .jstr (str "AdaptiveCard")),
        (str "greentic", .obj [(str "cardId", .jstr (str "x"))])]

def c4FileA : FileRec := ⟨str "a.json", some (str "json"), .parsed c4IdCard⟩

def c4FileB : FileRec := ⟨str "b.json", some (str "json"), .parsed c4IdCard⟩

def c4Cfg : ScanConfig := ⟨none, some (str "f"), false⟩

/-- C4: the claim states enumeration order is neutralized even when two
files resolve to the same card id in the same flow; on the code the
duplicate-identity dedup runs *before* the per-flow sort, in enumeration
order, so the two enumerations of the same two-file set keep different
cards (and produce different duplicate warnings). -/
theorem c4_order_counterexample :
    ([c4FileB, c4FileA] : List FileRec).Perm [c4FileA, c4FileB] ∧
    scanCards c4Cfg [c4FileB, c4FileA] =
      .ok ⟨[⟨str "f", [⟨str "b.json", str "x", str "f", []⟩]⟩],
           [warning .duplicateCardId
             (str "duplicate card_id x in flow f: b.json and a.json")]⟩ ∧
    scanCards c4Cfg [c4FileA, c4FileB] =
      .ok ⟨[⟨str "f", [⟨str "a.json", str "x", str "f", []⟩]⟩],
           [warning .duplicateCardId
             (str "duplicate card_id x in flow f: a.json and b.json")]⟩ ∧
    ([⟨str "f", [⟨str "b.json", str "x", str "f", []⟩]⟩] : List FlowGroup) ≠
      [⟨str "f", [⟨str "a.json", str "x", str "f", []⟩]⟩] := by
  refine ⟨List.Perm.swap _ _ _, rfl, rfl, by decide⟩

/-- Whether the grouping loop has already kept a card with this flow and
id (`seen` lookup). -/
def seenHas (seen : List (Str × List (Str × Str))) (fl cid : Str) : Bool :=
  (alFind ((alFind seen fl).getD []) cid).isSome

/-- Under pairwise-distinct (flow, card_id) pairs the grouping loop drops
nothing, warns nothing, errors in neither mode, and each flow's bucket is
the input's cards with that flow name, in input order. -/
theorem groupCards_nodup (strict : Bool) :
    ∀ (cs : List CardDoc) (seen : List (Str × List (Str × Str)))
      (flows : List (Str × List CardDoc)) (ws : List Warning),
      ((cs.map (fun c => (c.flow_name, c.card_id))).Nodup) →
      (∀ c ∈ cs, seenHas seen c.flow_name c.card_id = false) →
      alSorted flows → (∀ e ∈ flows, e.2 ≠ []) →
      ∃ flowsOut,
        groupCards strict cs seen flows ws = .ok (flowsOut, ws) ∧
        alSorted flowsOut ∧ (∀ e ∈ flowsOut, e.2 ≠ []) ∧
        (∀ fl, (alFind flowsOut fl).getD [] =
          (alFind flows fl).getD [] ++ cs.filter (fun c => decide (c.flow_name = fl)))
  | [], seen, flows, ws, _, _, hsort, hne =>
    ⟨flows, rfl, hsort, hne, fun fl => by simp⟩
  | card :: rest, seen, flows, ws, hnd, hdisj, hsort, hne => by
    have hdupfree : alFind ((alFind seen card.flow_name).getD []) card.card_id = none := by
      have := hdisj card (by simp)
      unfold seenHas at this
      exact Option.not_isSome_iff_eq_none.mp (by simp [this])
    have hndpair : (card.flow_name, card.card_id) ∉
        rest.map (fun c => (c.flow_name, c.card_id)) ∧
        (rest.map (fun c => (c.flow_name, c.card_id))).Nodup := by
      rw [List.map_cons] at hnd
      exact List.nodup_cons.mp hnd
    have hdisj' : ∀ c ∈ rest,
        seenHas (alInsert card.flow_name
          (alInsert card.card_id card.rel_path ((alFind seen card.flow_name).getD []))
          seen) c.flow_name c.card_id = false := by
      intro c hc
      unfold seenHas
      rw [alFind_alInsert]
      by_cases hfl : c.flow_name = card.flow_name
      · rw [if_pos hfl]
        simp only [Option.getD_some]
        rw [alFind_alInsert]
        by_cases hcid : c.card_id = card.card_id
        · exfalso
          exact hndpair.1 (by
            have : (c.flow_name, c.card_id) ∈ rest.map (fun c => (c.flow_name, c.card_id)) :=
              List.mem_map_of_mem _ hc
            rw [hfl, hcid] at this
            exact this)
        · rw [if_neg hcid]
          have := hdisj c (by simp [hc])
          unfold seenHas at this
          rw [hfl] at this
          exact this
      · rw [if_neg hfl]
        have := hdisj c (by simp [hc])
        unfold seenHas at this
        exact this
    have hsort' : alSorted (alInsert card.flow_name
        ((alFind flows card.flow_name).getD [] ++ [card]) flows) :=
      alSorted_alInsert _ _ hsort
    have hne' : ∀ e ∈ alInsert card.flow_name
        ((alFind flows card.flow_name).getD [] ++ [card]) flows, e.2 ≠ [] := by
      intro e he
      rcases mem_alInsert _ _ _ _ he with h0 | h0
      · rw [h0]
        simp
      · exact hne e h0
    rcases groupCards_nodup strict rest
        (alInsert card.flow_name
          (alInsert card.card_id card.rel_path ((alFind seen card.flow_name).getD []))
          seen)
        (alInsert card.flow_name
          ((alFind flows card.flow_name).getD [] ++ [card]) flows)
        ws hndpair.2 hdisj' hsort' hne' with
      ⟨flowsOut, hrun, hsortOut, hneOut, hlook⟩
    refine ⟨flowsOut, ?_, hsortOut, hneOut, ?_⟩
    · simp only [groupCards]
      rw [hdupfree]
      exact hrun
    · intro fl
      rw [hlook fl, alFind_alInsert]
      by_cases hfl : fl = card.flow_name
      · rw [if_pos hfl]
        have hflt : decide (card.flow_name = fl) = true := by
          rw [hfl]
          simp
        simp only [Option.getD_some, List.filter_cons, hflt, if_true]
        rw [hfl]
        simp
      · rw [if_neg hfl]
        have hflt : ¬ (decide (card.flow_name = fl) = true) := by
          simp only [decide_eq_true_eq]
          intro hbad
          exact hfl hbad.symm
        simp only [List.filter_cons]
        rw [if_neg hflt]

theorem alFind_eq_none {β : Type} (m : List (Str × β)) (k : Str) :
    alFind m k = none ↔ k ∉ m.map Prod.fst := by
  induction m with
  | nil => simp [alFind]
  | cons e rest ih =>
    obtain ⟨k₀, v₀⟩ := e
    by_cases heq : k = k₀
    · subst heq
      simp only [alFind, if_pos rfl, List.map_cons, List.mem_cons]
      constructor
      · intro h
        exact absurd h (Option.some_ne_none v₀)
      · intro h
        exact absurd (Or.inl trivial) h
    · simp only [alFind, heq, if_false, List.map_cons, List.mem_cons]
      rw [ih]
      constructor
      · intro h hbad
        rcases hbad with hbad | hbad
        · exact hbad.elim
        · exact h hbad
      · intro h hbad
        exact h (Or.inr hbad)

instance : IsTotal CardDoc cardLe := ⟨fun a b => strLeB_total a.rel_path b.rel_path⟩

instance : IsTrans CardDoc cardLe := ⟨fun _ _ _ => strLeB_trans⟩

/-- Strict comparison of cards by relative path (vacuously antisymmetric). -/
def cardPathLt (a b : CardDoc) : Prop := strLtB a.rel_path b.rel_path = true

instance : IsAntisymm CardDoc cardPathLt :=
  ⟨fun a b h₁ h₂ => absurd h₂ (by simp [cardPathLt, strLtB_asymm h₁])⟩

theorem sortCards_sorted (l : List CardDoc) : List.Sorted cardLe (sortCards l) :=
  List.sorted_insertionSort cardLe l

theorem sortCards_perm (l : List CardDoc) : (sortCards l).Perm l :=
  List.perm_insertionSort cardLe l

theorem sortCards_eq_nil {v : List CardDoc} (h : sortCards v = []) : v = [] := by
  have hp := sortCards_perm v
  rw [h] at hp
  exact hp.symm.eq_nil

theorem sortCards_sorted_lt {l : List CardDoc}
    (hnd : (l.map CardDoc.rel_path).Nodup) :
    List.Sorted cardPathLt (sortCards l) := by
  have hperm := sortCards_perm l
  have hndS : ((sortCards l).map CardDoc.rel_path).Nodup :=
    ((hperm.map CardDoc.rel_path).nodup_iff).mpr hnd
  have hpneq : List.Pairwise (fun a b : CardDoc => a.rel_path ≠ b.rel_path) (sortCards l) :=
    List.pairwise_map.mp hndS
  have hple : List.Pairwise cardLe (sortCards l) := sortCards_sorted l
  refine (hple.and hpneq).imp ?_
  intro a b hab
  rcases hab with ⟨hle, hneq⟩
  unfold cardLe strLe strLeB at hle
  simp only [Bool.not_eq_true'] at hle
  unfold cardPathLt
  cases hx : strLtB a.rel_path b.rel_path with
  | true => rfl
  | false => exact absurd (strLtB_connex hx hle) hneq

theorem sortCards_eq_of_perm {l₁ l₂ : List CardDoc} (hperm : l₁.Perm l₂)
    (hnd : (l₁.map CardDoc.rel_path).Nodup) : sortCards l₁ = sortCards l₂ := by
  have hnd₂ : (l₂.map CardDoc.rel_path).Nodup :=
    ((hperm.map CardDoc.rel_path).nodup_iff).mp hnd
  exact List.eq_of_perm_of_sorted
    ((sortCards_perm l₁).trans (hperm.trans (sortCards_perm l₂).symm))
    (sortCards_sorted_lt hnd) (sortCards_sorted_lt hnd₂)

/-- Two well-formed flow maps whose per-flow *sorted* buckets agree
pointwise produce the same final flow-group list. -/
theorem flowsOut_map_eq :
    ∀ (m₁ m₂ : List (Str × List CardDoc)),
      alSorted m₁ → alSorted m₂ →
      (∀ e ∈ m₁, e.2 ≠ []) → (∀ e ∈ m₂, e.2 ≠ []) →
      (∀ fl, sortCards ((alFind m₁ fl).getD []) = sortCards ((alFind m₂ fl).getD [])) →
      m₁.map (fun kv => FlowGroup.mk kv.1 (sortCards kv.2)) =
        m₂.map (fun kv => FlowGroup.mk kv.1 (sortCards kv.2))
  | [], [], _, _, _, _, _ => rfl
  | [], (k₂, v₂) :: t₂, _, _, _, hne₂, hlook => by
    exfalso
    have h := hlook k₂
    simp only [alFind, if_pos rfl, Option.getD_some, Option.getD_none] at h
    exact hne₂ (k₂, v₂) (by simp) (sortCards_eq_nil h.symm)
  | (k₁, v₁) :: t₁, [], _, _, hne₁, _, hlook => by
    exfalso
    have h := hlook k₁
    simp only [alFind, if_pos rfl, Option.getD_some, Option.getD_none] at h
    exact hne₁ (k₁, v₁) (by simp) (sortCards_eq_nil h)
  | (k₁, v₁) :: t₁, (k₂, v₂) :: t₂, hs₁, hs₂, hne₁, hne₂, hlook => by
    have hp₁ := List.pairwise_cons.mp hs₁
    have hp₂ := List.pairwise_cons.mp hs₂
    have hkeq : k₁ = k₂ := by
      by_contra hne
      cases hlt : strLtB k₁ k₂ with
      | true =>
        -- k₁ < k₂ : k₁ is absent from m₂, contradicting its nonempty bucket
        have habs : alFind ((k₂, v₂) :: t₂) k₁ = none := by
          rw [alFind_eq_none]
          simp only [List.map_cons, List.mem_cons]
          rintro (hbad | hbad)
          · exact hne hbad
          · have hk := hp₂.1 k₁ hbad
            unfold keyLt at hk
            rw [strLtB_asymm hlt] at hk
            exact Bool.noConfusion hk
        have h := hlook k₁
        rw [habs] at h
        simp only [alFind, if_pos rfl, Option.getD_some, Option.getD_none] at h
        exact hne₁ (k₁, v₁) (by simp) (sortCards_eq_nil h)
      | false =>
        have hgt : strLtB k₂ k₁ = true := by
          cases hx : strLtB k₂ k₁ with
          | true => rfl
          | false => exact absurd (strLtB_connex hlt hx) hne
        have habs : alFind ((k₁, v₁) :: t₁) k₂ = none := by
          rw [alFind_eq_none]
          simp only [List.map_cons, List.mem_cons]
          rintro (hbad | hbad)
          · exact hne hbad.symm
          · have hk := hp₁.1 k₂ hbad
            unfold keyLt at hk
            rw [strLtB_asymm hgt] at hk
            exact Bool.noConfusion hk
        have h := hlook k₂
        rw [habs] at h
        simp only [alFind, if_pos rfl, Option.getD_some, Option.getD_none] at h
        exact hne₂ (k₂, v₂) (by simp) (sortCards_eq_nil h.symm)
    subst hkeq
    have hveq : sortCards v₁ = sortCards v₂ := by
      have h := hlook k₁
      simp only [alFind, if_pos rfl, Option.getD_some] at h
      exact h
    have htails : t₁.map (fun kv => FlowGroup.mk kv.1 (sortCards kv.2)) =
        t₂.map (fun kv => FlowGroup.mk kv.1 (sortCards kv.2)) := by
      refine flowsOut_map_eq t₁ t₂ hp₁.2 hp₂.2 (fun e he => hne₁ e (by simp [he]))
        (fun e he => hne₂ e (by simp [he])) ?_
      intro fl
      by_cases hfl : fl = k₁
      · subst hfl
        have habs₁ : alFind t₁ fl = none := by
          rw [alFind_eq_none]
          intro hbad
          have hk := hp₁.1 fl hbad
          unfold keyLt at hk
          rw [strLtB_irrefl] at hk
          exact Bool.noConfusion hk
        have habs₂ : alFind t₂ fl = none := by
          rw [alFind_eq_none]
          intro hbad
          have hk := hp₂.1 fl hbad
          unfold keyLt at hk
          rw [strLtB_irrefl] at hk
          exact Bool.noConfusion hk
        rw [habs₁, habs₂]
      · have h := hlook fl
        simp only [alFind, hfl, if_false] at h
        exact h
    simp only [List.map_cons, htails, hveq]

/-- C4 (amended): scans of the same file set that differ only in
enumeration order produce identical flow groups (hence identical
downstream output, which is a function of the flow groups) and the same
warnings up to ordering — *provided* no two files resolve to the same
(flow, card_id) pair; with such duplicates the kept card depends on
enumeration order (see the counterexample). -/
theorem c4_scan_deterministic_amended :
    ∀ (cfg : ScanConfig) (files₁ files₂ : List FileRec) (out₁ out₂ : ScanOut),
      files₁.Perm files₂ →
      ((files₁.filterMap (scanDoc cfg)).map
        (fun c => (c.flow_name, c.card_id))).Nodup →
      ((files₁.filterMap (scanDoc cfg)).map CardDoc.rel_path).Nodup →
      scanCards cfg files₁ = .ok out₁ →
      scanCards cfg files₂ = .ok out₂ →
      out₁.flows = out₂.flows ∧ out₁.warnings.Perm out₂.warnings := by
  intro cfg files₁ files₂ out₁ out₂ hperm hpairs hpaths h₁ h₂
  unfold scanCards at h₁ h₂
  cases hloop₁ : scanFilesLoop cfg files₁ with
  | error e => rw [hloop₁] at h₁; simp at h₁
  | ok p₁ =>
  obtain ⟨ws₁, cs₁⟩ := p₁
  cases hloop₂ : scanFilesLoop cfg files₂ with
  | error e => rw [hloop₂] at h₂; simp at h₂
  | ok p₂ =>
  obtain ⟨ws₂, cs₂⟩ := p₂
  rw [hloop₁] at h₁
  rw [hloop₂] at h₂
  simp only [] at h₁ h₂
  rcases scanFilesLoop_eq hloop₁ with ⟨hws₁, hcs₁⟩
  rcases scanFilesLoop_eq hloop₂ with ⟨hws₂, hcs₂⟩
  have hcsperm : cs₁.Perm cs₂ := by
    rw [hcs₁, hcs₂]
    exact hperm.filterMap _
  have hwsperm : ws₁.Perm ws₂ := by
    rw [hws₁, hws₂]
    exact (hperm.map _).flatten
  have hpairs₁ : (cs₁.map (fun c => (c.flow_name, c.card_id))).Nodup := by
    rw [hcs₁]
    exact hpairs
  have hpairs₂ : (cs₂.map (fun c => (c.flow_name, c.card_id))).Nodup :=
    ((hcsperm.map _).nodup_iff).mp hpairs₁
  have hpaths₁ : (cs₁.map CardDoc.rel_path).Nodup := by
    rw [hcs₁]
    exact hpaths
  -- the empty-scan check takes the same branch in both runs
  have hlen : cs₁.isEmpty = cs₂.isEmpty := by
    cases hcsnil : cs₁ with
    | nil =>
      rw [hcsnil] at hcsperm
      rw [hcsperm.symm.eq_nil]
    | cons a t =>
      have : cs₂ ≠ [] := by
        intro hbad
        rw [hbad] at hcsperm
        exact (by simp [hcsnil] : cs₁ ≠ []) hcsperm.eq_nil
      rw [← hcsnil]
      cases hcs₂nil : cs₂ with
      | nil => exact absurd hcs₂nil this
      | cons b u => simp [hcsnil]
  -- run the empty check
  unfold emptyCheck at h₁ h₂
  have main : ∀ (ws₁' ws₂' : List Warning), ws₁'.Perm ws₂' →
      (match groupCards cfg.strict cs₁ [] [] ws₁' with
        | Except.error e => Except.error e
        | Except.ok (flows, ws) =>
          Except.ok (⟨flows.map (fun kv => ⟨kv.1, sortCards kv.2⟩), ws⟩ : ScanOut)) =
        Except.ok out₁ →
      (match groupCards cfg.strict cs₂ [] [] ws₂' with
        | Except.error e => Except.error e
        | Except.ok (flows, ws) =>
          Except.ok (⟨flows.map (fun kv => ⟨kv.1, sortCards kv.2⟩), ws⟩ : ScanOut)) =
        Except.ok out₂ →
      out₁.flows = out₂.flows ∧ out₁.warnings.Perm out₂.warnings := by
    intro ws₁' ws₂' hwperm hh₁ hh₂
    rcases groupCards_nodup cfg.strict cs₁ [] [] ws₁' hpairs₁
        (fun _ _ => rfl) alSorted_nil (by intro e he; simp at he) with
      ⟨fo₁, hrun₁, hsort₁, hne₁, hlook₁⟩
    rcases groupCards_nodup cfg.strict cs₂ [] [] ws₂' hpairs₂
        (fun _ _ => rfl) alSorted_nil (by intro e he; simp at he) with
      ⟨fo₂, hrun₂, hsort₂, hne₂, hlook₂⟩
    rw [hrun₁] at hh₁
    rw [hrun₂] at hh₂
    simp only [Except.ok.injEq] at hh₁ hh₂
    have hfleq : fo₁.map (fun kv => FlowGroup.mk kv.1 (sortCards kv.2)) =
        fo₂.map (fun kv => FlowGroup.mk kv.1 (sortCards kv.2)) := by
      refine flowsOut_map_eq fo₁ fo₂ hsort₁ hsort₂ hne₁ hne₂ ?_
      intro fl
      have e₁ := hlook₁ fl
      have e₂ := hlook₂ fl
      simp only [alFind, Option.getD_none, List.nil_append] at e₁ e₂
      rw [e₁, e₂]
      refine sortCards_eq_of_perm (hcsperm.filter _) ?_
      exact ((List.filter_sublist cs₁).map CardDoc.rel_path).nodup hpaths₁
    rw [← hh₁, ← hh₂]
    exact ⟨hfleq, hwperm⟩
  by_cases hempty : cs₁.isEmpty = true
  · rw [if_pos hempty] at h₁
    rw [if_pos (hlen ▸ hempty)] at h₂
    by_cases hstrict : cfg.strict = true
    · rw [if_pos hstrict] at h₁
      simp at h₁
    · rw [if_neg hstrict] at h₁
      rw [if_neg hstrict] at h₂
      simp only [] at h₁ h₂
      exact main _ _ (hwsperm.append_right _) h₁ h₂
  · rw [if_neg hempty] at h₁
    rw [if_neg (hlen ▸ hempty)] at h₂
    simp only [] at h₁ h₂
    exact main _ _ hwsperm h₁ h₂

/-- Witness for C4 (amended): the same two distinct-identity card files in
both enumeration orders produce equal flow groups and (empty) warnings. -/
theorem c4_scan_deterministic_amended_witness :
    (⟨[⟨str "f",
        [⟨str "a.json", str "a", str "f", []⟩,
         ⟨str "b.json", str "b", str "f", []⟩]⟩], []⟩ : ScanOut).flows =
      (⟨[⟨str "f",
          [⟨str "a.json", str "a", str "f", []⟩,
           ⟨str "b.json", str "b", str "f", []⟩]⟩], []⟩ : ScanOut).flows ∧
    (([] : List Warning)).Perm [] := by
  exact c4_scan_deterministic_amended c4Cfg
    [⟨str "b.json", some (str "json"),
       .parsed (.obj [(str "type", .jstr (str "AdaptiveCard")), (str "actions", .arr [])])⟩,
     ⟨str "a.json", some (str "json"),
       .parsed (.obj [(str "type", .jstr (str "AdaptiveCard")), (str "actions", .arr [])])⟩]
    [⟨str "a.json", some (str "json"),
       .parsed (.obj [(str "type", .jstr (str "AdaptiveCard")), (str "actions", .arr [])])⟩,
     ⟨str "b.json", some (str "json"),
       .parsed (.obj [(str "type", .jstr (str "AdaptiveCard")), (str "actions", .arr [])])⟩]
    _ _ (List.Perm.swap _ _ _) (by decide) (by decide) rfl rfl
